import Mathlib

/-!
Verification development for the `bevy_symbios` geometry-generation library.

The Rust sources under `src/` are shallowly embedded below.  All `f32`
arithmetic is idealised as exact rational arithmetic (`ℚ`); decimal literals
of the source are taken at face value.  The square root (`Vec3::length`,
`Vec3::distance`, quaternion normalisation) is modelled by `qsqrt`, a
computable rational square root that is exact on squares of rationals and
rounds up otherwise, so that `c * c < q → c < qsqrt q` holds just as it
does for the real square root.  Trigonometric functions are modelled by
truncated Taylor polynomials (`sinQ`, `cosQ`); no theorem in this file
depends on their concrete values, only on the shape of the data they are
used to build.

Embedded components:
  * `mesher.rs`    — point filter, parallel-transport frames, tube builder;
  * `collider.rs`  — capsule/sphere collider generation;
  * `export.rs`    — GLB (binary glTF) serialisation;
  * `materials.rs` — the `MaterialSettings` data and defaults used by export.
-/

set_option maxHeartbeats 1000000
set_option maxRecDepth 10000

namespace Symbios

/-! ### Integer square root (fuel-based, kernel-friendly) -/

/-- Floor integer square root by recursion on `n / 4`, with explicit fuel.
`fuel ≥ n` suffices; see `isqrtFuel_spec`. -/
def isqrtFuel : Nat → Nat → Nat
  | _, 0 => 0
  | n, fuel+1 =>
    if n ≤ 1 then n
    else
      let r := 2 * isqrtFuel (n / 4) fuel
      if (r+1)*(r+1) ≤ n then r+1 else r

/-- Floor integer square root. -/
def natSqrtE (n : Nat) : Nat := isqrtFuel n n

/-! ### Rational square root

`qsqrt q` is the model of `f32::sqrt` on the idealised rationals.  For
`q = a / b ≥ 0` in lowest terms it returns `⌈sqrt (a * b)⌉ / b`, which is the
exact square root whenever `q` is the square of a rational and otherwise an
over-approximation, preserving the order facts the source relies on. -/

def qsqrt (q : ℚ) : ℚ :=
  if q ≤ 0 then 0
  else if natSqrtE (q.num.toNat * q.den) * natSqrtE (q.num.toNat * q.den)
          = q.num.toNat * q.den
  then (natSqrtE (q.num.toNat * q.den) : ℚ) / (q.den : ℚ)
  else ((natSqrtE (q.num.toNat * q.den) : ℚ) + 1) / (q.den : ℚ)

/-! ### Float constants and idealised trigonometry -/

/-- The `f32` value of `std::f32::consts::PI`, as an exact rational. -/
def piQ : ℚ := 13176795 / 4194304

/-- The `f32` value of `std::f32::consts::TAU` (exactly `2 * piQ` in `f32`). -/
def tauQ : ℚ := 2 * piQ

/-- Idealised sine: degree-7 Taylor polynomial.  No theorem below depends on
its values; it only keeps ring-vertex construction fully computable. -/
def sinQ (x : ℚ) : ℚ := x - x^3 / 6 + x^5 / 120 - x^7 / 5040

/-- Idealised cosine: degree-6 Taylor polynomial (see `sinQ`). -/
def cosQ (x : ℚ) : ℚ := 1 - x^2 / 2 + x^4 / 24 - x^6 / 720

/-! ### Vectors (glam `Vec3` / `Vec4` over the idealised scalars) -/

/-- Model of glam `Vec3`. -/
structure Vec3Q where
  x : ℚ
  y : ℚ
  z : ℚ
deriving DecidableEq, Repr

/-- Model of glam `Vec4` (used for `SkeletonPoint::color`). -/
structure Vec4Q where
  x : ℚ
  y : ℚ
  z : ℚ
  w : ℚ
deriving DecidableEq, Repr

namespace Vec3Q

def zero : Vec3Q := ⟨0, 0, 0⟩

/-- `Vec3::X`. -/
def unitX : Vec3Q := ⟨1, 0, 0⟩

/-- `Vec3::Y`. -/
def unitY : Vec3Q := ⟨0, 1, 0⟩

def add (a b : Vec3Q) : Vec3Q := ⟨a.x + b.x, a.y + b.y, a.z + b.z⟩

def sub (a b : Vec3Q) : Vec3Q := ⟨a.x - b.x, a.y - b.y, a.z - b.z⟩

/-- Scalar multiplication `v * s`. -/
def smul (a : Vec3Q) (s : ℚ) : Vec3Q := ⟨a.x * s, a.y * s, a.z * s⟩

def dot (a b : Vec3Q) : ℚ := a.x * b.x + a.y * b.y + a.z * b.z

def cross (a b : Vec3Q) : Vec3Q :=
  ⟨a.y * b.z - a.z * b.y, a.z * b.x - a.x * b.z, a.x * b.y - a.y * b.x⟩

/-- `Vec3::length_squared`. -/
def lengthSq (a : Vec3Q) : ℚ := dot a a

/-- `Vec3::length`. -/
def length (a : Vec3Q) : ℚ := qsqrt (lengthSq a)

/-- `Vec3::distance_squared`. -/
def distSq (a b : Vec3Q) : ℚ := lengthSq (sub a b)

/-- `Vec3::distance`. -/
def dist (a b : Vec3Q) : ℚ := qsqrt (distSq a b)

/-- Scalar division `v / s` (glam divides componentwise). -/
def sdiv (a : Vec3Q) (s : ℚ) : Vec3Q := ⟨a.x / s, a.y / s, a.z / s⟩

/-- glam `Vec3::normalize`: divide by the length.  On a zero vector the
source would produce NaN; in the model division by zero yields zero.  All
call sites in the embedded code are guarded. -/
def normalize (a : Vec3Q) : Vec3Q := sdiv a (length a)

/-- glam `Vec3::normalize_or_zero`: zero when the length vanishes. -/
def normalizeOrZero (a : Vec3Q) : Vec3Q :=
  if lengthSq a = 0 then zero else sdiv a (length a)

/-- glam `Vec3::any_orthonormal_vector` (Pixar orthonormal-basis formula);
`sign` is `f32::signum(z)`, which is `1.0` at `+0.0`. -/
def anyOrthonormalVector (v : Vec3Q) : Vec3Q :=
  let sign : ℚ := if v.z < 0 then -1 else 1
  let a := -1 / (sign + v.z)
  let b := v.x * v.y * a
  ⟨b, sign + v.y * v.y * a, -v.y⟩

end Vec3Q

/-! ### Quaternions (glam `Quat`) -/

/-- Model of glam `Quat` (components `x, y, z, w`). -/
structure QuatQ where
  x : ℚ
  y : ℚ
  z : ℚ
  w : ℚ
deriving DecidableEq, Repr

namespace QuatQ

/-- `Quat::IDENTITY`. -/
def identity : QuatQ := ⟨0, 0, 0, 1⟩

/-- Hamilton product `a * b` (glam component order). -/
def mul (a b : QuatQ) : QuatQ :=
  ⟨a.w * b.x + a.x * b.w + a.y * b.z - a.z * b.y,
   a.w * b.y - a.x * b.z + a.y * b.w + a.z * b.x,
   a.w * b.z + a.x * b.y - a.y * b.x + a.z * b.w,
   a.w * b.w - a.x * b.x - a.y * b.y - a.z * b.z⟩

/-- Rotation of a vector: `q * v` for a unit quaternion,
`v + 2 w (q.xyz × v) + 2 (q.xyz × (q.xyz × v))`. -/
def rotate (q : QuatQ) (v : Vec3Q) : Vec3Q :=
  let u : Vec3Q := ⟨q.x, q.y, q.z⟩
  let c1 := Vec3Q.cross u v
  let c2 := Vec3Q.cross u c1
  Vec3Q.add v (Vec3Q.add (Vec3Q.smul c1 (2 * q.w)) (Vec3Q.smul c2 2))

def lengthSq (q : QuatQ) : ℚ := q.x * q.x + q.y * q.y + q.z * q.z + q.w * q.w

/-- glam `Quat::normalize` (divide by the length; call sites guarded). -/
def normalize (q : QuatQ) : QuatQ :=
  let l := qsqrt (lengthSq q)
  ⟨q.x / l, q.y / l, q.z / l, q.w / l⟩

/-- glam `Quat::from_axis_angle`: `(axis * sin(angle/2), cos(angle/2))`. -/
def fromAxisAngle (axis : Vec3Q) (angle : ℚ) : QuatQ :=
  let s := sinQ (angle / 2)
  let c := cosQ (angle / 2)
  ⟨axis.x * s, axis.y * s, axis.z * s, c⟩

end QuatQ

/-- `1 - 2 * f32::EPSILON`, the glam `from_rotation_arc` branch threshold. -/
def oneMinusEps : ℚ := 1 - 2 / 8388608

/-- glam `Quat::from_rotation_arc`: identity for nearly-identical inputs, a
half-turn about an orthonormal axis for nearly-opposite inputs, and the
normalised `(from × to, 1 + from ⬝ to)` quaternion otherwise. -/
def fromRotationArc (src dst : Vec3Q) : QuatQ :=
  let d := Vec3Q.dot src dst
  if d > oneMinusEps then QuatQ.identity
  else if d < -oneMinusEps then
    QuatQ.fromAxisAngle (Vec3Q.anyOrthonormalVector src) piQ
  else
    let c := Vec3Q.cross src dst
    QuatQ.normalize ⟨c.x, c.y, c.z, 1 + d⟩

/-! ### Skeleton data (`symbios_turtle_3d::SkeletonPoint`) -/

/-- Model of `SkeletonPoint`.  `material_id` is a `u8` in the source; the
claims never exercise wrap-around on it, so it is carried as `Nat`. -/
structure SkeletonPoint where
  position : Vec3Q
  rotation : QuatQ
  radius : ℚ
  color : Vec4Q
  material_id : Nat
  uv_scale : ℚ
deriving DecidableEq, Repr

instance : Inhabited SkeletonPoint :=
  ⟨⟨Vec3Q.zero, QuatQ.identity, 0, ⟨0, 0, 0, 0⟩, 0, 0⟩⟩

/-- A skeleton is an ordered list of strands (ordered point lists). -/
def Skeleton := List (List SkeletonPoint)

/-! ### Point filter (`mesher.rs` lines 129–140, `collider.rs` lines 94–104)

Both modules keep the first point and then every point whose squared
distance from the last kept point exceeds `0.000001`. -/

def filterAux (last : SkeletonPoint) : List SkeletonPoint → List SkeletonPoint
  | [] => []
  | p :: rest =>
    if Vec3Q.distSq last.position p.position > 1/1000000 then
      p :: filterAux p rest
    else
      filterAux last rest

/-- The adjacent-duplicate point filter shared by mesher and collider. -/
def filterPoints : List SkeletonPoint → List SkeletonPoint
  | [] => []
  | p :: rest => p :: filterAux p rest

/-! ### Frame transport (`mesher.rs` lines 149–266) -/

/-- `LSystemMeshBuilder::robust_rotation_arc` (`mesher.rs` lines 252–266). -/
def robustRotationArc (src dst : Vec3Q) : QuatQ :=
  let d := Vec3Q.dot src dst
  if d < -(9999/10000) then
    let axis := if |src.x| < 4/5 then
      Vec3Q.normalize (Vec3Q.cross Vec3Q.unitX src)
    else
      Vec3Q.normalize (Vec3Q.cross Vec3Q.unitY src)
    QuatQ.fromAxisAngle axis piQ
  else if d > 9999/10000 then
    QuatQ.identity
  else
    fromRotationArc src dst

/-- Position of the `i`-th point (out-of-range access yields the default
point; all uses below are in range). -/
def posAt (pts : List SkeletonPoint) (i : Nat) : Vec3Q :=
  (pts.getD i default).position

/-- Miter tangent at point `i ≥ 1` (`mesher.rs` lines 163–175): the
normalised sum of incoming and outgoing directions for interior points (or
the incoming direction when that sum is tiny), and the incoming direction
for the final point. -/
def tangentAt (pts : List SkeletonPoint) (i : Nat) : Vec3Q :=
  if i + 1 < pts.length then
    let vin := Vec3Q.normalizeOrZero (Vec3Q.sub (posAt pts i) (posAt pts (i-1)))
    let vout := Vec3Q.normalizeOrZero (Vec3Q.sub (posAt pts (i+1)) (posAt pts i))
    let s := Vec3Q.add vin vout
    if Vec3Q.lengthSq s < 1/1000 then vin else Vec3Q.normalize s
  else
    Vec3Q.normalizeOrZero (Vec3Q.sub (posAt pts i) (posAt pts (i-1)))

/-- One propagation step (`mesher.rs` lines 177–179): bend the running frame
so its forward axis (`rot * Vec3::Y`) meets the tangent at point `i`. -/
def rotStep (pts : List SkeletonPoint) (i : Nat) (rot : QuatQ) : QuatQ :=
  QuatQ.mul (robustRotationArc (QuatQ.rotate rot Vec3Q.unitY) (tangentAt pts i)) rot

/-- Frames for points `i, i+1, …` (`count` many), continuing from `rot`. -/
def rotSteps (pts : List SkeletonPoint) : QuatQ → Nat → Nat → List QuatQ
  | _, _, 0 => []
  | rot, i, count+1 =>
    let r := rotStep pts i rot
    r :: rotSteps pts r (i+1) count

/-- Per-point parallel-transport frames (`mesher.rs` lines 152–184): the
first point's declared rotation corrected onto the first segment tangent,
then one `rotStep` per subsequent point. -/
def rotationsList (pts : List SkeletonPoint) : List QuatQ :=
  match pts with
  | [] => []
  | p :: _ =>
    let t0 := Vec3Q.normalizeOrZero (Vec3Q.sub (posAt pts 1) (posAt pts 0))
    let rot0 := QuatQ.mul (robustRotationArc (QuatQ.rotate p.rotation Vec3Q.unitY) t0) p.rotation
    rot0 :: rotSteps pts rot0 1 (pts.length - 1)

/-! ### V-coordinate accumulation (`mesher.rs` lines 186–207) -/

/-- Tail of the V-coordinate list: one accumulated value per segment. -/
def vAux (cum : ℚ) : List SkeletonPoint → List ℚ
  | a :: b :: rest =>
    let segLen := Vec3Q.dist a.position b.position
    let avgRadius := (a.radius + b.radius) * (1/2)
    let circumference := avgRadius * tauQ
    let vScale := if circumference > 1/10000 then 1 / circumference else 1
    let c := cum + segLen * vScale * a.uv_scale
    c :: vAux c (b :: rest)
  | _ => []

/-- Per-point V coordinates: `0` for the first point, then the running sum
`V[i+1] = V[i] + segment_length * v_scale * uv_scale[i]`. -/
def vCoords (pts : List SkeletonPoint) : List ℚ := 0 :: vAux 0 pts

/-! ### Mesh data and ring construction (`mesher.rs` lines 14–36, 268–311) -/

/-- Model of the per-bucket `MeshData` accumulator. -/
structure MeshData where
  positions : List Vec3Q
  normals : List Vec3Q
  colors : List Vec4Q
  uvs : List (ℚ × ℚ)
  indices : List Nat
deriving DecidableEq, Repr

def MeshData.empty : MeshData := ⟨[], [], [], [], []⟩

instance : Inhabited MeshData := ⟨MeshData.empty⟩

/-- The mesher's bucket map, as a total function from material id to
accumulated data (models `HashMap<u8, MeshData>` with `entry().or_default()`;
untouched ids map to empty data). -/
def Buckets := Nat → MeshData

def Buckets.empty : Buckets := fun _ => MeshData.empty

def Buckets.update (b : Buckets) (m : Nat) (d : MeshData) : Buckets :=
  fun k => if k = m then d else b k

/-- One ring vertex direction: `theta = (i / res) * TAU`. -/
def ringTheta (res i : Nat) : ℚ := ((i : ℚ) / (res : ℚ)) * tauQ

/-- `LSystemMeshBuilder::add_ring` (`mesher.rs` lines 268–294): append
`res + 1` vertices (positions, radial normals, the ring's color, and UVs
`(i / res, v_coord)`) and return the ring's starting index. -/
def addRing (data : MeshData) (center : Vec3Q) (rotation : QuatQ) (radius : ℚ)
    (color : Vec4Q) (vCoord : ℚ) (res : Nat) : Nat × MeshData :=
  let startIndex := data.positions.length
  let ringIdx := List.range (res + 1)
  let newPositions := ringIdx.map (fun i =>
    Vec3Q.add center (QuatQ.rotate rotation
      ⟨cosQ (ringTheta res i) * radius, 0, sinQ (ringTheta res i) * radius⟩))
  let newNormals := ringIdx.map (fun i =>
    QuatQ.rotate rotation ⟨cosQ (ringTheta res i), 0, sinQ (ringTheta res i)⟩)
  let newColors := ringIdx.map (fun _ => color)
  let newUvs := ringIdx.map (fun i : ℕ => ((i : ℚ) / (res : ℚ), vCoord))
  (startIndex,
   { positions := data.positions ++ newPositions
     normals := data.normals ++ newNormals
     colors := data.colors ++ newColors
     uvs := data.uvs ++ newUvs
     indices := data.indices })

/-- `LSystemMeshBuilder::connect_rings` (`mesher.rs` lines 296–311): `res`
quads, each as two triangles, in the source's push order. -/
def connectRings (data : MeshData) (bottomStart topStart : Nat) (res : Nat) : MeshData :=
  { data with
    indices := data.indices ++ (List.range res).flatMap (fun i =>
      [bottomStart + i, topStart + i, bottomStart + i + 1,
       bottomStart + i + 1, topStart + i, topStart + i + 1]) }

/-- One strand node: a filtered point paired with its frame and V value. -/
def StrandNode := SkeletonPoint × QuatQ × ℚ

/-- Bottom ring of a segment (`mesher.rs` lines 220–232): reuse the cached
ring when the cached material matches, otherwise generate a fresh ring. -/
def bottomRing (res : Nat) (cache : Option (Nat × Nat)) (bucket : MeshData)
    (curr : StrandNode) : Nat × MeshData :=
  match cache with
  | some (cachedMat, idx) =>
    if cachedMat = curr.1.material_id then (idx, bucket)
    else addRing bucket curr.1.position curr.2.1 curr.1.radius curr.1.color curr.2.2 res
  | none => addRing bucket curr.1.position curr.2.1 curr.1.radius curr.1.color curr.2.2 res

/-- Top ring of a segment (`mesher.rs` lines 234–243): always fresh. -/
def topRing (res : Nat) (bucket : MeshData) (next : StrandNode) : Nat × MeshData :=
  addRing bucket next.1.position next.2.1 next.1.radius next.1.color next.2.2 res

/-- One iteration of the phase-3 loop on the current bucket: bottom ring,
top ring, side-wall triangles; returns the top-ring start index and the
updated bucket. -/
def segBucket (res : Nat) (cache : Option (Nat × Nat)) (bucket : MeshData)
    (curr next : StrandNode) : Nat × MeshData :=
  let bottom := bottomRing res cache bucket curr
  let top := topRing res bottom.2 next
  (top.1, connectRings top.2 bottom.1 top.1 res)

/-- Phase-3 loop of `process_strand` (`mesher.rs` lines 209–249).  The
source keeps `ring_cache : Vec<Option<(u8, u32)>>`, but entry `i` is only
ever written by iteration `i - 1` and read by iteration `i`, so the cache is
carried as a single optional `(material, top-ring index)` value. -/
def segLoop (res : Nat) : Option (Nat × Nat) → Buckets → StrandNode →
    List StrandNode → Buckets
  | _, b, _, [] => b
  | cache, b, curr, next :: rest =>
    let matId := curr.1.material_id
    let stepRes := segBucket res cache (b matId) curr next
    segLoop res (some (matId, stepRes.1)) (b.update matId stepRes.2) next rest

/-- The filtered points paired with their frames and V coordinates. -/
def strandNodes (pts : List SkeletonPoint) : List StrandNode :=
  pts.zip ((rotationsList pts).zip (vCoords pts))

/-- `LSystemMeshBuilder::process_strand` (`mesher.rs` lines 128–250):
filter, compute frames and V coordinates, then generate and connect rings
with cross-segment sharing. -/
def processStrand (res : Nat) (b : Buckets) (points : List SkeletonPoint) : Buckets :=
  if (filterPoints points).length < 2 then b
  else
    match strandNodes (filterPoints points) with
    | [] => b
    | first :: rest => segLoop res none b first rest

/-- `MAX_RESOLUTION` and the `with_resolution` clamp (`mesher.rs` lines
38–40, 97–106): `res.clamp(3, 128)`. -/
def clampResolution (res : Nat) : Nat := min (max res 3) 128

/-- `LSystemMeshBuilder::build` (`mesher.rs` lines 114–126): process every
strand of at least two points. -/
def buildMeshes (res : Nat) (skeleton : Skeleton) : Buckets :=
  skeleton.foldl
    (fun b strand => if strand.length < 2 then b else processStrand res b strand)
    Buckets.empty

/-! ### Collider generation (`collider.rs`) -/

/-- Collider shape descriptor (`avian3d` `Collider::sphere` /
`Collider::capsule (radius, cylinder_length)`). -/
inductive ColliderShape where
  | sphere (radius : ℚ)
  | capsule (radius : ℚ) (length : ℚ)
deriving DecidableEq, Repr

/-- Model of `PositionedCollider` (`collider.rs` lines 12–22); the
`Transform` is carried as its translation and rotation. -/
structure PositionedCollider where
  translation : Vec3Q
  rotation : QuatQ
  shape : ColliderShape
  radius : ℚ
  length : ℚ
deriving DecidableEq, Repr

/-- Body of the per-segment loop of `ColliderGenerator::process_strand`
(`collider.rs` lines 110–151): `none` models `continue`. -/
def segCollider (minRadius : ℚ) (start e : SkeletonPoint) : Option PositionedCollider :=
  let avgRadius := (start.radius + e.radius) * (1/2)
  if avgRadius < minRadius then none
  else
    let segmentVec := Vec3Q.sub e.position start.position
    let length := Vec3Q.length segmentVec
    if length < 1/10000 then none
    else
      let center := Vec3Q.smul (Vec3Q.add start.position e.position) (1/2)
      let direction := Vec3Q.sdiv segmentVec length
      let rotation := fromRotationArc Vec3Q.unitY direction
      let shape := if length < 2 * avgRadius then
        ColliderShape.sphere avgRadius
      else
        ColliderShape.capsule avgRadius (length - 2 * avgRadius)
      some ⟨center, rotation, shape, avgRadius, length⟩

/-- Consecutive pairs of a list (the `i, i+1` indexing of the loops). -/
def consecPairs {α : Type} : List α → List (α × α)
  | a :: b :: rest => (a, b) :: consecPairs (b :: rest)
  | _ => []

/-- `ColliderGenerator::process_strand` (`collider.rs` lines 89–152). -/
def processStrandColliders (minRadius : ℚ) (points : List SkeletonPoint) :
    List PositionedCollider :=
  if points.length < 2 then []
  else
    let filtered := filterPoints points
    if filtered.length < 2 then []
    else (consecPairs filtered).filterMap (fun pr => segCollider minRadius pr.1 pr.2)

/-- `ColliderGenerator::build_parts` (`collider.rs` lines 76–87). -/
def buildParts (minRadius : ℚ) (skeleton : Skeleton) : List PositionedCollider :=
  skeleton.foldl
    (fun acc strand =>
      if strand.length < 2 then acc else acc ++ processStrandColliders minRadius strand)
    []

/-- The `with_min_radius` clamp (`collider.rs` lines 49–52). -/
def clampMinRadius (r : ℚ) : ℚ := max r 0

/-! ### Material settings (`materials.rs` lines 21–73) -/

inductive TextureType where
  | none
  | grid
  | noise
  | checker
deriving DecidableEq, Repr

/-- Model of `MaterialSettings` (`materials.rs` lines 49–59). -/
structure MaterialSettings where
  base_color : Vec3Q
  emission_color : Vec3Q
  emission_strength : ℚ
  roughness : ℚ
  metallic : ℚ
  texture : TextureType
  uv_scale : ℚ
deriving DecidableEq, Repr

/-- `MaterialSettings::default` (`materials.rs` lines 61–73). -/
def defaultMaterialSettings : MaterialSettings :=
  { base_color := ⟨1, 1, 1⟩
    emission_color := ⟨0, 0, 0⟩
    emission_strength := 0
    roughness := 1/2
    metallic := 0
    texture := TextureType.none
    uv_scale := 1 }

/-! ### GLB export (`export.rs` lines 139–436)

Byte vectors are `List Nat` (each entry a byte value).  `f32` bit encoding
is not modelled bit-for-bit: `f32le` is a deterministic 4-byte surrogate;
every theorem below depends only on its length and determinism. -/

/-- `u32::to_le_bytes` composed with the source's `as u32` cast: the four
little-endian bytes of `n mod 2^32`. -/
def u32le (n : Nat) : List Nat :=
  [n % 256, n / 256 % 256, n / 65536 % 256, n / 16777216 % 256]

/-- Deterministic 4-byte surrogate for the IEEE-754 encoding of an `f32`. -/
def f32le (q : ℚ) : List Nat := u32le ((⌊q * 65536⌋ + 2^31).toNat)

/-- Round up to a multiple of 4: the source's `(x + 3) & !3`. -/
def pad4 (n : Nat) : Nat := (n + 3) / 4 * 4

/-- ASCII bytes of a string (all JSON produced by the exporter is ASCII, so
this agrees with the UTF-8 bytes written by the source). -/
def strBytes (s : String) : List Nat := s.data.map Char.toNat

/-- Read a little-endian `u32` starting at byte offset `o`. -/
def readU32 (l : List Nat) (o : Nat) : Nat :=
  l.getD o 0 + 256 * l.getD (o+1) 0 + 65536 * l.getD (o+2) 0
    + 16777216 * l.getD (o+3) 0

/-- `pack_glb` (`export.rs` lines 405–436): 12-byte header, JSON chunk
padded with spaces (byte 32), and, when binary data exists, a binary chunk
padded with zero bytes. -/
def packGlb (json : List Nat) (binData : List Nat) : List Nat :=
  let jsonPaddedLen := pad4 json.length
  let binPaddedLen := pad4 binData.length
  let binChunkSize := if binData = [] then 0 else 8 + binPaddedLen
  let totalLength := 12 + 8 + jsonPaddedLen + binChunkSize
  u32le 0x46546C67 ++ u32le 2 ++ u32le totalLength
    ++ u32le jsonPaddedLen ++ u32le 0x4E4F534A
    ++ json ++ List.replicate (jsonPaddedLen - json.length) 32
    ++ (if binData = [] then []
        else u32le binPaddedLen ++ u32le 0x004E4942
          ++ binData ++ List.replicate (binPaddedLen - binData.length) 0)

/-- The source's `total_length` value for given chunk payloads. -/
def glbTotalLength (json : List Nat) (binData : List Nat) : Nat :=
  12 + 8 + pad4 json.length + (if binData = [] then 0 else 8 + pad4 binData.length)

/-- `build_empty_glb` (`export.rs` lines 400–403). -/
def emptyGlbJson : String :=
  "\x7b\"asset\":\x7b\"version\":\"2.0\",\"generator\":\"bevy_symbios\"\x7d,\"scene\":0,\"scenes\":[\x7b\"name\":\"Empty\"\x7d]\x7d"

def buildEmptyGlb : List Nat := packGlb (strBytes emptyGlbJson) []

/-! ### GLB scene assembly (`export.rs` lines 144–398) -/

/-- The attribute streams the exporter reads off a Bevy `Mesh` (an absent
attribute or a wrong layout yields `None`, exactly as the `and_then` chains
in the source do). -/
structure GlbMesh where
  positions : Option (List Vec3Q)
  normals : Option (List Vec3Q)
  colors : Option (List Vec4Q)
  indices : Option (List Nat)
deriving DecidableEq, Repr

def defaultGlbMesh : GlbMesh := ⟨none, none, none, none⟩

/-- The values of one glTF material entry, before JSON rendering
(`export.rs` lines 166–194). -/
structure GltfMaterial where
  id : Nat
  base_color : Vec3Q
  metallic : ℚ
  roughness : ℚ
  emissive : Vec3Q
deriving DecidableEq, Repr

/-- Material entry for a bucket: emissive channels are
`(emission_color * emission_strength).min(1.0)` (`export.rs` 169–171). -/
def materialEntry (matId : Nat) (s : MaterialSettings) : GltfMaterial :=
  { id := matId
    base_color := s.base_color
    metallic := s.metallic
    roughness := s.roughness
    emissive := ⟨min (s.emission_color.x * s.emission_strength) 1,
                 min (s.emission_color.y * s.emission_strength) 1,
                 min (s.emission_color.z * s.emission_strength) 1⟩ }

/-- Deterministic model of Rust fixed-point formatting `{:.prec$}`:
round-half-to-even at the last kept digit, then print with `prec` decimal
digits.  (Exact digit agreement with Rust is irrelevant to the theorems
below, which use only determinism of the rendering.) -/
def fmtFixed (prec : Nat) (q : ℚ) : String :=
  let scale : ℚ := (10 ^ prec : ℕ)
  let fl := ⌊q * scale⌋
  let fr := q * scale - fl
  let n := if fr > 1/2 then fl + 1
           else if fr < 1/2 then fl
           else if fl % 2 = 0 then fl else fl + 1
  let whole := toString (n.natAbs / 10 ^ prec)
  let fracDigits := toString (n.natAbs % 10 ^ prec)
  let fracPadded := String.mk (List.replicate (prec - fracDigits.length) '0') ++ fracDigits
  (if n < 0 then "-" else "") ++ whole ++ "." ++ fracPadded

def fmt4 (q : ℚ) : String := fmtFixed 4 q

def fmt6 (q : ℚ) : String := fmtFixed 6 q

/-- JSON text of one material entry (`export.rs` lines 173–194). -/
def renderMaterial (e : GltfMaterial) : String :=
  "\x7b\"name\":\"Material_" ++ toString e.id
    ++ "\",\"pbrMetallicRoughness\":\x7b\"baseColorFactor\":["
    ++ fmt4 e.base_color.x ++ "," ++ fmt4 e.base_color.y ++ ","
    ++ fmt4 e.base_color.z ++ ",1.0],\"metallicFactor\":" ++ fmt4 e.metallic
    ++ ",\"roughnessFactor\":" ++ fmt4 e.roughness
    ++ "\x7d,\"emissiveFactor\":[" ++ fmt4 e.emissive.x ++ ","
    ++ fmt4 e.emissive.y ++ "," ++ fmt4 e.emissive.z ++ "]\x7d"

def bufferViewJson (off len target : Nat) : String :=
  "\x7b\"buffer\":0,\"byteOffset\":" ++ toString off
    ++ ",\"byteLength\":" ++ toString len
    ++ ",\"target\":" ++ toString target ++ "\x7d"

def posAccessorJson (bv cnt : Nat) (mn mx : Vec3Q) : String :=
  "\x7b\"bufferView\":" ++ toString bv
    ++ ",\"componentType\":5126,\"count\":" ++ toString cnt
    ++ ",\"type\":\"VEC3\",\"min\":[" ++ fmt6 mn.x ++ "," ++ fmt6 mn.y ++ ","
    ++ fmt6 mn.z ++ "],\"max\":[" ++ fmt6 mx.x ++ "," ++ fmt6 mx.y ++ ","
    ++ fmt6 mx.z ++ "]\x7d"

def vecAccessorJson (bv cnt : Nat) (vecType : String) : String :=
  "\x7b\"bufferView\":" ++ toString bv
    ++ ",\"componentType\":5126,\"count\":" ++ toString cnt
    ++ ",\"type\":\"" ++ vecType ++ "\"\x7d"

def idxAccessorJson (bv cnt : Nat) : String :=
  "\x7b\"bufferView\":" ++ toString bv
    ++ ",\"componentType\":5125,\"count\":" ++ toString cnt
    ++ ",\"type\":\"SCALAR\"\x7d"

def meshJson (matId : Nat) (attrsJson indicesStr : String) (meshIdx : Nat) : String :=
  "\x7b\"name\":\"mesh_mat" ++ toString matId
    ++ "\",\"primitives\":[\x7b\"attributes\":\x7b" ++ attrsJson ++ "\x7d"
    ++ indicesStr ++ ",\"material\":" ++ toString meshIdx ++ "\x7d]\x7d"

def nodeJson (matId meshIdx : Nat) : String :=
  "\x7b\"name\":\"node_mat" ++ toString matId ++ "\",\"mesh\":"
    ++ toString meshIdx ++ "\x7d"

/-- `f32::MAX` as an exact rational. -/
def f32Max : ℚ := 2^128 - 2^104

def vminQ (a b : Vec3Q) : Vec3Q := ⟨min a.x b.x, min a.y b.y, min a.z b.z⟩

def vmaxQ (a b : Vec3Q) : Vec3Q := ⟨max a.x b.x, max a.y b.y, max a.z b.z⟩

/-- Accumulator threaded through the per-mesh loop of `build_glb`. -/
structure GlbState where
  binBuffer : List Nat
  bufferViews : List String
  accessors : List String
  meshes : List String
  nodes : List String
deriving DecidableEq, Repr

def GlbState.empty : GlbState := ⟨[], [], [], [], []⟩

def posBytes (positions : List Vec3Q) : List Nat :=
  positions.flatMap (fun p => f32le p.x ++ f32le p.y ++ f32le p.z)

def colorBytes (colors : List Vec4Q) : List Nat :=
  colors.flatMap (fun c => f32le c.x ++ f32le c.y ++ f32le c.z ++ f32le c.w)

def idxBytes (indices : List Nat) : List Nat := indices.flatMap u32le

/-- One iteration of the mesh loop of `build_glb` (`export.rs` lines
198–363).  A mesh without positions (or with zero vertices) is skipped but
still consumes its `mesh_idx`, exactly as `continue` inside `enumerate()`
does.  Normal and color accessors use the position count as their `count`
field, as the source does. -/
def meshStep (meshIdx matId : Nat) (mesh : GlbMesh) (st : GlbState) : GlbState :=
  match mesh.positions with
  | none => st
  | some positions =>
    if positions.isEmpty then st
    else
      let mn := positions.foldl vminQ ⟨f32Max, f32Max, f32Max⟩
      let mx := positions.foldl vmaxQ ⟨-f32Max, -f32Max, -f32Max⟩
      let posOffset := st.binBuffer.length
      let pBytes := posBytes positions
      let bin1 := st.binBuffer ++ pBytes
      let bv1 := st.bufferViews ++ [bufferViewJson posOffset pBytes.length 34962]
      let attrs1 := ["\"POSITION\":" ++ toString st.accessors.length]
      let acc1 := st.accessors ++ [posAccessorJson (bv1.length - 1) positions.length mn mx]
      let step2 : List Nat × List String × List String × List String :=
        match mesh.normals with
        | none => (bin1, bv1, acc1, attrs1)
        | some normals =>
          let nOffset := bin1.length
          let nBytes := posBytes normals
          (bin1 ++ nBytes,
           bv1 ++ [bufferViewJson nOffset nBytes.length 34962],
           acc1 ++ [vecAccessorJson bv1.length positions.length "VEC3"],
           attrs1 ++ ["\"NORMAL\":" ++ toString acc1.length])
      let step3 : List Nat × List String × List String × List String :=
        match mesh.colors with
        | none => step2
        | some colors =>
          let cOffset := step2.1.length
          let cBytes := colorBytes colors
          (step2.1 ++ cBytes,
           step2.2.1 ++ [bufferViewJson cOffset cBytes.length 34962],
           step2.2.2.1 ++ [vecAccessorJson step2.2.1.length positions.length "VEC4"],
           step2.2.2.2 ++ ["\"COLOR_0\":" ++ toString step2.2.2.1.length])
      let step4 : List Nat × List String × List String × String :=
        match mesh.indices with
        | none => (step3.1, step3.2.1, step3.2.2.1, "")
        | some indices =>
          let iOffset := step3.1.length
          let iBytes := idxBytes indices
          (step3.1 ++ iBytes,
           step3.2.1 ++ [bufferViewJson iOffset iBytes.length 34963],
           step3.2.2.1 ++ [idxAccessorJson step3.2.1.length indices.length],
           ",\"indices\":" ++ toString step3.2.2.1.length)
      { binBuffer := step4.1
        bufferViews := step4.2.1
        accessors := step4.2.2.1
        meshes := st.meshes
          ++ [meshJson matId (String.intercalate "," step3.2.2.2) step4.2.2.2 meshIdx]
        nodes := st.nodes ++ [nodeJson matId meshIdx] }

/-- Top-level JSON of `build_glb` (`export.rs` lines 374–395). -/
def assembleGlbJson (st : GlbState) (materials : List String) : String :=
  "\x7b\"asset\":\x7b\"version\":\"2.0\",\"generator\":\"bevy_symbios\"\x7d,\"scene\":0,"
    ++ "\"scenes\":[\x7b\"name\":\"LSystem\",\"nodes\":["
    ++ String.intercalate "," ((List.range st.nodes.length).map toString)
    ++ "]\x7d],\"nodes\":[" ++ String.intercalate "," st.nodes
    ++ "],\"meshes\":[" ++ String.intercalate "," st.meshes
    ++ "],\"materials\":[" ++ String.intercalate "," materials
    ++ "],\"accessors\":[" ++ String.intercalate "," st.accessors
    ++ "],\"bufferViews\":[" ++ String.intercalate "," st.bufferViews
    ++ "],\"buffers\":[\x7b\"byteLength\":" ++ toString st.binBuffer.length
    ++ "\x7d]\x7d"

/-- The material entries rendered by `build_glb` for the given sorted ids
(`export.rs` lines 166–195). -/
def glbMaterials (ids : List Nat) (setOf : Nat → MaterialSettings) : List String :=
  ids.map (fun id => renderMaterial (materialEntry id (setOf id)))

/-- `build_glb` over the sorted material ids, with the two maps abstracted
to lookup functions (`export.rs` lines 151–398). -/
def buildGlbCore (ids : List Nat) (meshOf : Nat → GlbMesh)
    (setOf : Nat → MaterialSettings) : List Nat :=
  let materials := glbMaterials ids setOf
  let st := (ids.foldl
    (fun p id => (meshStep p.2 id (meshOf id) p.1, p.2 + 1))
    (GlbState.empty, 0)).1
  if st.nodes = [] then buildEmptyGlb
  else packGlb (strBytes (assembleGlbJson st materials)) st.binBuffer

/-! ### Hash maps as association lists

A `HashMap` is modelled as an association list whose order stands for the
(arbitrary) iteration order; two lists that are permutations of each other
with no duplicate keys model equal maps. -/

def lookupA {α : Type} (k : Nat) (l : List (Nat × α)) : Option α := List.lookup k l

def keysA {α : Type} (l : List (Nat × α)) : List Nat := l.map Prod.fst

/-- Insertion into a sorted list (ascending). -/
def sortedInsert (x : Nat) : List Nat → List Nat
  | [] => [x]
  | y :: ys => if x ≤ y then x :: y :: ys else y :: sortedInsert x ys

/-- Ascending sort, the model of `mat_ids.sort()`. -/
def sortNat (l : List Nat) : List Nat := l.foldr sortedInsert []

/-- `meshes_to_glb` / `build_glb` (`export.rs` lines 144–163): collect the
bucket keys, sort them, and build.  `mesh_buckets[&mat_id]` cannot miss
because the ids come from the key set itself; `getD` models the access. -/
def meshesToGlb (meshBuckets : List (Nat × GlbMesh))
    (materialSettings : List (Nat × MaterialSettings)) : List Nat :=
  buildGlbCore (sortNat (keysA meshBuckets))
    (fun k => (lookupA k meshBuckets).getD defaultGlbMesh)
    (fun k => (lookupA k materialSettings).getD defaultMaterialSettings)

/-! ### Definitions supporting the claims -/

/-- The point-filter separation predicate: squared distance strictly above
the `0.000001` threshold. -/
def farApart (a b : SkeletonPoint) : Prop :=
  1/1000000 < Vec3Q.distSq a.position b.position

/-- Material id of each segment of a strand: segment `i` uses point `i`'s
`material_id`, so a strand of `n` points yields `n - 1` entries. -/
def segMats (pts : List SkeletonPoint) : List Nat :=
  pts.dropLast.map (fun p => p.material_id)

/-- Rings generated in bucket `m` by the segments after the first, when the
previous segment's material is `prev`: a segment of material `a` creates its
top ring always and a fresh bottom ring exactly when `a ≠ prev`. -/
def ringCountAux (prev m : Nat) : List Nat → Nat
  | [] => 0
  | a :: rest =>
    (if a = m then (if a = prev then 1 else 2) else 0) + ringCountAux a m rest

/-- Rings generated in bucket `m` by a strand with segment materials `l`
(the first segment always creates both its rings). -/
def ringCount (m : Nat) : List Nat → Nat
  | [] => 0
  | a :: rest => (if a = m then 2 else 0) + ringCountAux a m rest

/-- `n` segment materials alternating between `a` and `b`, starting at `a`. -/
def altMats (a b : Nat) : Nat → List Nat
  | 0 => []
  | n+1 => a :: altMats b a n

/-- Multiply a point's `uv_scale` by `k`, leaving everything else alone. -/
def scaleUv (k : ℚ) (p : SkeletonPoint) : SkeletonPoint :=
  { p with uv_scale := k * p.uv_scale }

/-- Multiply the V component of every UV of a mesh bucket by `k`. -/
def scaleV (k : ℚ) (d : MeshData) : MeshData :=
  { d with uvs := d.uvs.map (fun uv => (uv.1, k * uv.2)) }

/-- The node carried for a scaled strand. -/
def nodeScale (k : ℚ) (nd : StrandNode) : StrandNode :=
  (scaleUv k nd.1, nd.2.1, k * nd.2.2)

/-- The U pattern of one ring: `i / res` for `i = 0, …, res`. -/
def ringUList (res : Nat) : List ℚ :=
  (List.range (res+1)).map (fun i : ℕ => (i : ℚ) / (res : ℚ))

/-- A UV list that decomposes into whole rings. -/
def IsRingBlocks (res : Nat) (l : List (ℚ × ℚ)) : Prop :=
  ∃ blocks : List (List (ℚ × ℚ)), l = blocks.flatten ∧
    ∀ bl ∈ blocks, bl.map Prod.fst = ringUList res

/-- The V-accumulation term of segment `i` (`mesher.rs` lines 193–203). -/
def segTerm (pts : List SkeletonPoint) (i : Nat) : ℚ :=
  Vec3Q.dist (posAt pts i) (posAt pts (i+1))
    * (if ((pts.getD i default).radius + (pts.getD (i+1) default).radius) * (1/2) * tauQ
          > 1/10000
       then 1 / (((pts.getD i default).radius + (pts.getD (i+1) default).radius) * (1/2) * tauQ)
       else 1)
    * (pts.getD i default).uv_scale

/-- Clamping to the interval `[0, 1]`, following the specification's wording
(for comparison with the code's one-sided `min … 1.0`). -/
def clamp01 (q : ℚ) : ℚ := min (max q 0) 1

/-! ### Concrete inputs for witnesses and counterexamples -/

def mkPoint (pos : Vec3Q) (radius : ℚ) (matId : Nat) (uv : ℚ) : SkeletonPoint :=
  ⟨pos, QuatQ.identity, radius, ⟨1, 1, 1, 1⟩, matId, uv⟩

/-- A unit direction whose dot product with `Y` lies strictly between the
mesher's `-0.9999` threshold and glam's `-(1 - 2⁻²²)` threshold. -/
def cexDir : Vec3Q := ⟨2000/1000001, -999999/1000001, 0⟩

def cexP0 : SkeletonPoint := mkPoint ⟨0, 0, 0⟩ (1/10) 0 1

def cexP1 : SkeletonPoint := mkPoint cexDir (1/10) 0 1

/-- Material settings with a negative emissive channel product. -/
def c6BadSettings : MaterialSettings :=
  { defaultMaterialSettings with emission_color := ⟨-1, 0, 0⟩, emission_strength := 1 }

/-- A mesh with `2^30` vertices: its position stream alone is `12 · 2^30`
bytes, so the GLB total length exceeds `2^32`. -/
def c4BigMesh : GlbMesh := ⟨some (List.replicate 1073741824 Vec3Q.zero), none, none, none⟩

/-- A small strand: three collinear points one unit apart, same material. -/
def demoStrand : List SkeletonPoint :=
  [mkPoint ⟨0, 0, 0⟩ 1 0 1, mkPoint ⟨0, 1, 0⟩ 1 0 1, mkPoint ⟨0, 2, 0⟩ 1 0 1]

/-- A strand whose two points coincide (degenerate after filtering). -/
def degenStrand : List SkeletonPoint :=
  [mkPoint ⟨0, 0, 0⟩ 1 0 1, mkPoint ⟨0, 0, 0⟩ 1 0 1]

/-- Two-point straight-down strand (direction exactly `-Y`). -/
def downStrand0 : SkeletonPoint := mkPoint ⟨0, 0, 0⟩ (1/10) 0 1

def downStrand1 : SkeletonPoint := mkPoint ⟨0, -1, 0⟩ (1/10) 0 1

def c9MeshA : GlbMesh := ⟨some [⟨0, 0, 0⟩], none, none, none⟩

def c9MeshB : GlbMesh := ⟨some [⟨1, 0, 0⟩, ⟨2, 0, 0⟩], some [⟨0, 1, 0⟩, ⟨0, 1, 0⟩], none, some [0, 1, 0]⟩

/-! ## Theorems -/

theorem isqrtFuel_spec (fuel : Nat) :
    ∀ n : Nat, n ≤ fuel →
      isqrtFuel n fuel * isqrtFuel n fuel ≤ n ∧
      n < (isqrtFuel n fuel + 1) * (isqrtFuel n fuel + 1) := by
  induction fuel with
  | zero =>
    intro n hn
    interval_cases n
    simp [isqrtFuel]
  | succ fuel ih =>
    intro n hn
    by_cases h1 : n ≤ 1
    · simp only [isqrtFuel, if_pos h1]
      interval_cases n <;> simp
    · have hrec : n / 4 ≤ fuel := by omega
      obtain ⟨hlo, hhi⟩ := ih (n / 4) hrec
      simp only [isqrtFuel, if_neg h1]
      set r0 := isqrtFuel (n / 4) fuel with hr0
      have h4 : 4 * (n / 4) ≤ n := by omega
      have hmod : n < 4 * (n / 4) + 4 := by omega
      have hsq : 2 * r0 * (2 * r0) ≤ n := by nlinarith
      have hub : n < (2 * r0 + 2) * (2 * r0 + 2) := by nlinarith
      by_cases hc : (2 * r0 + 1) * (2 * r0 + 1) ≤ n
      · rw [if_pos hc]
        exact ⟨hc, hub⟩
      · rw [if_neg hc]
        exact ⟨hsq, by omega⟩

theorem natSqrtE_spec (n : Nat) :
    natSqrtE n * natSqrtE n ≤ n ∧ n < (natSqrtE n + 1) * (natSqrtE n + 1) :=
  isqrtFuel_spec n n (le_refl n)

theorem natSqrtE_unique (n s : Nat)
    (h1 : s * s ≤ n) (h2 : n < (s + 1) * (s + 1)) : natSqrtE n = s := by
  obtain ⟨hlo, hhi⟩ := natSqrtE_spec n
  by_contra hne
  rcases Nat.lt_or_ge (natSqrtE n) s with h | h
  · have hs : natSqrtE n + 1 ≤ s := h
    have : (natSqrtE n + 1) * (natSqrtE n + 1) ≤ s * s :=
      Nat.mul_le_mul hs hs
    omega
  · have hgt : s < natSqrtE n := lt_of_le_of_ne h (fun he => hne he.symm)
    have hs : s + 1 ≤ natSqrtE n := hgt
    have : (s + 1) * (s + 1) ≤ natSqrtE n * natSqrtE n :=
      Nat.mul_le_mul hs hs
    omega

theorem natSqrtE_sq (s : Nat) : natSqrtE (s * s) = s :=
  natSqrtE_unique _ s (le_refl _) (by nlinarith)

theorem qsqrt_nonpos {q : ℚ} (h : q ≤ 0) : qsqrt q = 0 := by
  simp [qsqrt, h]

theorem qsqrt_nonneg (q : ℚ) : 0 ≤ qsqrt q := by
  unfold qsqrt
  split
  · exact le_rfl
  · have hb : (0:ℚ) < (q.den : ℚ) := by positivity
    split <;> positivity

theorem qsqrt_pos {q : ℚ} (h : 0 < q) : 0 < qsqrt q := by
  unfold qsqrt
  rw [if_neg (not_le.mpr h)]
  have hnum : 0 < q.num := Rat.num_pos.mpr h
  have ha : 1 ≤ q.num.toNat := by omega
  have hb : 1 ≤ q.den := q.pos
  have hab : 1 ≤ q.num.toNat * q.den := Nat.mul_le_mul ha hb
  have hbq : (0:ℚ) < (q.den : ℚ) := by positivity
  split
  · rename_i hs
    have hge : 1 ≤ natSqrtE (q.num.toNat * q.den) := by
      by_contra hs1
      have h0 : natSqrtE (q.num.toNat * q.den) = 0 := by omega
      rw [h0] at hs
      omega
    have : (0:ℚ) < (natSqrtE (q.num.toNat * q.den) : ℚ) := by
      exact_mod_cast Nat.lt_of_lt_of_le Nat.zero_lt_one hge
    positivity
  · have : (0:ℚ) < (natSqrtE (q.num.toNat * q.den) : ℚ) + 1 := by positivity
    positivity

theorem qsqrt_sq_ge {q : ℚ} (h : 0 ≤ q) : q ≤ qsqrt q * qsqrt q := by
  rcases eq_or_lt_of_le h with he | hpos
  · rw [← he, qsqrt_nonpos (le_refl 0)]
    simp
  unfold qsqrt
  rw [if_neg (not_le.mpr hpos)]
  have hnum : 0 < q.num := Rat.num_pos.mpr hpos
  have hden : 0 < q.den := q.pos
  have hbq : (0:ℚ) < (q.den : ℚ) := by exact_mod_cast hden
  have hcast : ((q.num.toNat : ℕ) : ℚ) = ((q.num : ℤ) : ℚ) := by
    exact_mod_cast congrArg (fun z : ℤ => (z : ℚ)) (Int.toNat_of_nonneg (le_of_lt hnum))
  have hq : q = ((q.num.toNat : ℕ) : ℚ) / (q.den : ℚ) := by
    rw [hcast]
    exact (Rat.num_div_den q).symm
  obtain ⟨hlo, hhi⟩ := natSqrtE_spec (q.num.toNat * q.den)
  set s := natSqrtE (q.num.toNat * q.den) with hs
  split
  · rename_i hex
    rw [div_mul_div_comm]
    nth_rewrite 1 [hq]
    rw [div_le_div_iff₀ hbq (by positivity)]
    have hexq : (s : ℚ) * s = ((q.num.toNat : ℕ) : ℚ) * ((q.den : ℕ) : ℚ) := by
      exact_mod_cast hex
    nlinarith
  · rw [div_mul_div_comm]
    nth_rewrite 1 [hq]
    rw [div_le_div_iff₀ hbq (by positivity)]
    have hceil : ((q.num.toNat * q.den : ℕ) : ℚ) + 1 ≤ (((s+1) * (s+1) : ℕ) : ℚ) := by
      exact_mod_cast hhi
    push_cast at hceil ⊢
    nlinarith

theorem qsqrt_gt {c q : ℚ} (hc : 0 ≤ c) (h : c * c < q) : c < qsqrt q := by
  have hq : 0 ≤ q := le_of_lt (lt_of_le_of_lt (by positivity) h)
  by_contra hle
  push_neg at hle
  have h1 := qsqrt_sq_ge hq
  have h2 := qsqrt_nonneg q
  nlinarith

theorem qsqrt_of_sq {r : ℚ} (h : 0 ≤ r) : qsqrt (r * r) = r := by
  rcases eq_or_lt_of_le h with he | hpos
  · rw [← he]
    simp [qsqrt_nonpos]
  have hq : 0 < r * r := by positivity
  have hnum : (r * r).num = r.num * r.num := Rat.mul_self_num r
  have hden : (r * r).den = r.den * r.den := Rat.mul_self_den r
  have hrnum : 0 < r.num := Rat.num_pos.mpr hpos
  have h1 : (((r.num * r.num).toNat : ℕ) : ℤ) = r.num * r.num :=
    Int.toNat_of_nonneg (by positivity)
  have h2 : ((r.num.toNat : ℕ) : ℤ) * ((r.num.toNat : ℕ) : ℤ) = r.num * r.num := by
    rw [Int.toNat_of_nonneg (le_of_lt hrnum)]
  have htn : (r * r).num.toNat = r.num.toNat * r.num.toNat := by
    rw [hnum]
    exact_mod_cast h1.trans h2.symm
  have hprod : (r * r).num.toNat * (r * r).den
      = (r.num.toNat * r.den) * (r.num.toNat * r.den) := by
    rw [htn, hden]
    ring
  unfold qsqrt
  rw [if_neg (not_le.mpr hq), hprod, natSqrtE_sq, if_pos rfl, hden]
  have hqr : ((r.num.toNat : ℕ) : ℚ) = ((r.num : ℤ) : ℚ) := by
    exact_mod_cast congrArg (fun z : ℤ => (z : ℚ)) (Int.toNat_of_nonneg (le_of_lt hrnum))
  push_cast
  rw [div_eq_iff (by positivity)]
  push_cast at hqr
  rw [hqr]
  have hdq : ((r.den : ℕ) : ℚ) ≠ 0 := by positivity
  have hnd : (r.num : ℚ) = r * (r.den : ℚ) :=
    (div_eq_iff hdq).mp (Rat.num_div_den r)
  rw [hnd]
  ring

theorem tauQ_pos : 0 < tauQ := by norm_num [tauQ, piQ]

theorem Vec3Q.lengthSq_nonneg (a : Vec3Q) : 0 ≤ Vec3Q.lengthSq a := by
  unfold Vec3Q.lengthSq Vec3Q.dot
  nlinarith [sq_nonneg a.x, sq_nonneg a.y, sq_nonneg a.z]

theorem Vec3Q.length_nonneg (a : Vec3Q) : 0 ≤ Vec3Q.length a := qsqrt_nonneg _

theorem Vec3Q.distSq_nonneg (a b : Vec3Q) : 0 ≤ Vec3Q.distSq a b := Vec3Q.lengthSq_nonneg _

theorem Vec3Q.dist_pos {a b : Vec3Q} (h : 0 < Vec3Q.distSq a b) : 0 < Vec3Q.dist a b := qsqrt_pos h

/-! ### Point-filter lemmas -/

theorem filterAux_sublist (l : List SkeletonPoint) :
    ∀ last, List.Sublist (filterAux last l) l := by
  induction l with
  | nil => intro last; simp [filterAux]
  | cons p rest ih =>
    intro last
    unfold filterAux
    split
    · exact (ih p).cons₂ p
    · exact (ih last).cons p

theorem filterPoints_sublist (pts : List SkeletonPoint) :
    List.Sublist (filterPoints pts) pts := by
  cases pts with
  | nil => simp [filterPoints]
  | cons p rest => exact (filterAux_sublist rest p).cons₂ p

theorem filterAux_chain (l : List SkeletonPoint) :
    ∀ last, List.Chain' farApart (last :: filterAux last l) := by
  induction l with
  | nil => intro last; simp [filterAux]
  | cons p rest ih =>
    intro last
    unfold filterAux
    split
    · rename_i h
      exact List.chain'_cons.mpr ⟨h, ih p⟩
    · exact ih last

theorem filterPoints_chain (pts : List SkeletonPoint) :
    List.Chain' farApart (filterPoints pts) := by
  cases pts with
  | nil => simp [filterPoints]
  | cons p rest => exact filterAux_chain rest p

theorem farApart_dist {a b : SkeletonPoint} (h : farApart a b) :
    1/1000 < Vec3Q.dist a.position b.position := by
  apply qsqrt_gt (by norm_num)
  calc (1/1000 : ℚ) * (1/1000) = 1/1000000 := by norm_num
  _ < Vec3Q.distSq a.position b.position := h

theorem lengthSq_sub_comm (a b : Vec3Q) :
    Vec3Q.lengthSq (Vec3Q.sub a b) = Vec3Q.lengthSq (Vec3Q.sub b a) := by
  simp only [Vec3Q.lengthSq, Vec3Q.dot, Vec3Q.sub]
  ring

theorem consecPairs_short {α : Type} (l : List α) (h : l.length < 2) :
    consecPairs l = [] := by
  match l with
  | [] => rfl
  | [a] => rfl
  | a :: b :: t =>
    simp only [List.length_cons] at h
    omega

theorem chain'_consecPairs {α : Type} {P : α → α → Prop} :
    ∀ l : List α, List.Chain' P l → ∀ pr ∈ consecPairs l, P pr.1 pr.2 := by
  intro l
  match l with
  | [] => intro _ pr hpr; simp [consecPairs] at hpr
  | [a] => intro _ pr hpr; simp [consecPairs] at hpr
  | a :: b :: t =>
    intro hc pr hpr
    rw [show consecPairs (a :: b :: t) = (a, b) :: consecPairs (b :: t) from rfl] at hpr
    rcases List.mem_cons.mp hpr with he | hm
    · subst he
      exact (List.chain'_cons.mp hc).1
    · exact chain'_consecPairs (b :: t) (List.chain'_cons.mp hc).2 pr hm

theorem filterMap_length_eq_filter {α β : Type} (f : α → Option β) (p : α → Bool) :
    ∀ l : List α, (∀ x ∈ l, (f x).isSome = p x) →
      (l.filterMap f).length = (l.filter p).length := by
  intro l
  induction l with
  | nil => intro; rfl
  | cons a t ih =>
    intro h
    have ha := h a (List.mem_cons_self a t)
    have ht := fun x hx => h x (List.mem_cons_of_mem a hx)
    rw [List.filterMap_cons, List.filter_cons]
    cases hfa : f a with
    | none =>
      rw [hfa] at ha
      simp only [Option.isSome_none] at ha
      rw [← ha]
      simp [ih ht]
    | some b =>
      rw [hfa] at ha
      simp only [Option.isSome_some] at ha
      rw [← ha]
      simp [ih ht]

/-! ### Collider per-segment lemmas -/

theorem segCollider_isSome {minRadius : ℚ} {s e : SkeletonPoint} (hfar : farApart s e) :
    (segCollider minRadius s e).isSome
      = decide (minRadius ≤ (s.radius + e.radius) * (1/2)) := by
  unfold segCollider
  by_cases hmin : (s.radius + e.radius) * (1/2) < minRadius
  · rw [if_pos hmin]
    rw [Option.isSome_none, eq_comm, decide_eq_false_iff_not]
    exact not_le.mpr hmin
  · rw [if_neg hmin]
    have hlen : 1/10000 < Vec3Q.length (Vec3Q.sub e.position s.position) := by
      apply qsqrt_gt (by norm_num)
      calc (1/10000 : ℚ) * (1/10000) = 1/100000000 := by norm_num
      _ < 1/1000000 := by norm_num
      _ < Vec3Q.distSq s.position e.position := hfar
      _ = Vec3Q.lengthSq (Vec3Q.sub e.position s.position) := lengthSq_sub_comm _ _
    rw [if_neg (not_lt.mpr (le_of_lt hlen))]
    rw [Option.isSome_some, eq_comm, decide_eq_true_eq]
    exact not_lt.mp hmin

/-- C7: the point filter returns an order-preserving subsequence that keeps
the first point, in which consecutive points are separated by squared
distance above `1e-6`; a strand filtered below two points produces no mesh
data and no colliders. -/
theorem c7_point_filter (pts : List SkeletonPoint) (p : SkeletonPoint)
    (rest : List SkeletonPoint) (minRadius : ℚ) (res : Nat) (b : Buckets) :
    List.Sublist (filterPoints pts) pts
    ∧ (filterPoints (p :: rest)).head? = some p
    ∧ List.Chain' farApart (filterPoints pts)
    ∧ ((filterPoints pts).length < 2 →
        processStrand res b pts = b ∧ processStrandColliders minRadius pts = []) := by
  refine ⟨filterPoints_sublist pts, rfl, filterPoints_chain pts, fun hlen => ⟨?_, ?_⟩⟩
  · unfold processStrand
    rw [if_pos hlen]
  · unfold processStrandColliders
    by_cases hp : pts.length < 2
    · rw [if_pos hp]
    · rw [if_neg hp, if_pos hlen]

theorem c7_point_filter_witness :
    processStrand 8 Buckets.empty degenStrand = Buckets.empty
    ∧ processStrandColliders 0 degenStrand = [] :=
  (c7_point_filter degenStrand default [] 0 8 Buckets.empty).2.2.2
    (by norm_num [degenStrand, filterPoints, filterAux, mkPoint,
      Vec3Q.distSq, Vec3Q.sub, Vec3Q.lengthSq, Vec3Q.dot])

/-- C10: after filtering, consecutive points are more than `1e-3` apart, so
the collider's `length < 1e-4` skip is unreachable and the collider count
equals the count of segments meeting the radius threshold. -/
theorem c10_filtered_segments_yield_colliders (minRadius : ℚ) (pts : List SkeletonPoint) :
    List.Chain' (fun a b => 1/1000 < Vec3Q.dist a.position b.position) (filterPoints pts)
    ∧ List.Chain' (fun a b => ¬ Vec3Q.dist a.position b.position < 1/10000) (filterPoints pts)
    ∧ (processStrandColliders minRadius pts).length
        = ((consecPairs (filterPoints pts)).filter
            (fun pr => decide (minRadius ≤ (pr.1.radius + pr.2.radius) * (1/2)))).length := by
  refine ⟨(filterPoints_chain pts).imp (fun a b h => farApart_dist h),
          (filterPoints_chain pts).imp (fun a b h => ?_), ?_⟩
  · have := farApart_dist h
    intro hcon
    have : (1/1000 : ℚ) < 1/10000 := lt_trans this hcon
    norm_num at this
  · unfold processStrandColliders
    by_cases hp : pts.length < 2
    · rw [if_pos hp]
      have hfp : (filterPoints pts).length < 2 :=
        Nat.lt_of_le_of_lt (filterPoints_sublist pts).length_le hp
      rw [consecPairs_short _ hfp]
      rfl
    · rw [if_neg hp]
      by_cases hf : (filterPoints pts).length < 2
      · rw [if_pos hf, consecPairs_short _ hf]
        rfl
      · rw [if_neg hf]
        exact filterMap_length_eq_filter _ _ _
          (fun pr hpr => segCollider_isSome
            (chain'_consecPairs _ (filterPoints_chain pts) pr hpr))

/-- C3: skipped segments and the sphere/capsule selection: a qualifying
segment's collider has the mean of the endpoint radii as radius, the segment
midpoint as translation, and is a sphere when `length < 2 * radius` and
otherwise a capsule of cylindrical length `length - 2 * radius`. -/
theorem c3_collider_shape_selection (minRadius : ℚ) (s e : SkeletonPoint) :
    ((s.radius + e.radius) * (1/2) < minRadius → segCollider minRadius s e = none)
    ∧ (¬ (s.radius + e.radius) * (1/2) < minRadius →
        ¬ Vec3Q.length (Vec3Q.sub e.position s.position) < 1/10000 →
        (segCollider minRadius s e).isSome)
    ∧ (∀ c, segCollider minRadius s e = some c →
        c.radius = (s.radius + e.radius) / 2
        ∧ c.translation = Vec3Q.smul (Vec3Q.add s.position e.position) (1/2)
        ∧ c.length = Vec3Q.length (Vec3Q.sub e.position s.position)
        ∧ (c.length < 2 * c.radius → c.shape = ColliderShape.sphere c.radius)
        ∧ (¬ c.length < 2 * c.radius →
            c.shape = ColliderShape.capsule c.radius (c.length - 2 * c.radius))) := by
  refine ⟨fun hmin => ?_, fun hmin hlen => ?_, fun c hc => ?_⟩
  · unfold segCollider
    rw [if_pos hmin]
  · unfold segCollider
    rw [if_neg hmin, if_neg hlen]
    rfl
  · unfold segCollider at hc
    by_cases hmin : (s.radius + e.radius) * (1/2) < minRadius
    · rw [if_pos hmin] at hc
      exact absurd hc (by simp)
    · rw [if_neg hmin] at hc
      by_cases hlen : Vec3Q.length (Vec3Q.sub e.position s.position) < 1/10000
      · rw [if_pos hlen] at hc
        exact absurd hc (by simp)
      · rw [if_neg hlen] at hc
        have hc2 := Option.some_injective _ hc
        subst hc2
        refine ⟨by ring, rfl, rfl, fun hsp => ?_, fun hcap => ?_⟩
        · simp only [if_pos hsp]
        · simp only [if_neg hcap]

theorem c3_collider_shape_selection_witness :
    (segCollider 0 (mkPoint ⟨0,0,0⟩ (1/10) 0 1) (mkPoint ⟨0,1,0⟩ (1/10) 0 1)).isSome :=
  (c3_collider_shape_selection 0 _ _).2.1 (by norm_num [mkPoint])
    (by
      have h1 : Vec3Q.sub (mkPoint ⟨0,1,0⟩ (1/10) 0 1).position
          (mkPoint ⟨0,0,0⟩ (1/10) 0 1).position = ⟨0,1,0⟩ := by
        norm_num [mkPoint, Vec3Q.sub]
      rw [h1]
      have h2 : Vec3Q.lengthSq (⟨0,1,0⟩ : Vec3Q) = 1 * 1 := by
        norm_num [Vec3Q.lengthSq, Vec3Q.dot]
      rw [Vec3Q.length, h2, qsqrt_of_sq (by norm_num)]
      norm_num)

/-! ### V-coordinate lemmas -/

theorem vAux_cons2 (cum : ℚ) (a b : SkeletonPoint) (rest : List SkeletonPoint) :
    vAux cum (a :: b :: rest)
      = (cum + segTerm (a :: b :: rest) 0)
        :: vAux (cum + segTerm (a :: b :: rest) 0) (b :: rest) := by
  simp [vAux, segTerm, posAt, List.getD_cons_zero, List.getD_cons_succ]

theorem segTerm_cons (a : SkeletonPoint) (l : List SkeletonPoint) (i : Nat) :
    segTerm (a :: l) (i+1) = segTerm l i := by
  simp [segTerm, posAt, List.getD_cons_succ]

theorem vAux_getD : ∀ (l : List SkeletonPoint) (cum : ℚ) (i : Nat), i + 1 < l.length →
    (cum :: vAux cum l).getD (i+1) 0 = (cum :: vAux cum l).getD i 0 + segTerm l i := by
  intro l
  induction l with
  | nil => intro cum i h; simp at h
  | cons a t ih =>
    cases t with
    | nil =>
      intro cum i h
      simp only [List.length_cons, List.length_nil] at h
      omega
    | cons b rest =>
      intro cum i h
      rw [vAux_cons2]
      cases i with
      | zero => simp [List.getD_cons_zero, List.getD_cons_succ]
      | succ j =>
        have hb : j + 1 < (b :: rest).length := by
          simp only [List.length_cons] at h ⊢
          omega
        have := ih (cum + segTerm (a :: b :: rest) 0) j hb
        rw [segTerm_cons] at *
        simpa [List.getD_cons_succ] using this

theorem segTerm_pos {a b : SkeletonPoint} (rest : List SkeletonPoint)
    (hfar : farApart a b) (huv : 0 < a.uv_scale) :
    0 < segTerm (a :: b :: rest) 0 := by
  unfold segTerm posAt
  simp only [List.getD_cons_zero, List.getD_cons_succ]
  have hd : 0 < Vec3Q.dist a.position b.position :=
    qsqrt_pos (lt_trans (by norm_num) hfar)
  have hs : 0 < (if ((a.radius + b.radius) * (1/2) * tauQ) > 1/10000
      then 1 / ((a.radius + b.radius) * (1/2) * tauQ) else 1) := by
    split
    · rename_i hcir
      have : (0:ℚ) < (a.radius + b.radius) * (1/2) * tauQ := lt_trans (by norm_num) hcir
      positivity
    · norm_num
  exact mul_pos (mul_pos hd hs) huv

theorem vAux_mono : ∀ (l : List SkeletonPoint) (cum : ℚ),
    List.Chain' farApart l → (∀ p ∈ l, 0 < p.uv_scale) →
    List.Chain' (fun a b => a < b) (cum :: vAux cum l) := by
  intro l
  induction l with
  | nil => intro cum _ _; simp [vAux]
  | cons a t ih =>
    cases t with
    | nil => intro cum _ _; simp [vAux]
    | cons b rest =>
      intro cum hchain huv
      rw [vAux_cons2]
      refine List.chain'_cons.mpr ⟨?_, ?_⟩
      · have := segTerm_pos rest (List.chain'_cons.mp hchain).1
          (huv a (List.mem_cons_self a _))
        linarith
      · exact ih _ (List.chain'_cons.mp hchain).2
          (fun p hp => huv p (List.mem_cons_of_mem a hp))

/-! ### Ring-block lemmas -/

theorem isRingBlocks_nil (res : Nat) : IsRingBlocks res [] :=
  ⟨[], rfl, by simp⟩

theorem isRingBlocks_append (res : Nat) {l : List (ℚ × ℚ)} (h : IsRingBlocks res l)
    (bl : List (ℚ × ℚ)) (hbl : bl.map Prod.fst = ringUList res) :
    IsRingBlocks res (l ++ bl) := by
  obtain ⟨blocks, he, hall⟩ := h
  refine ⟨blocks ++ [bl], ?_, ?_⟩
  · rw [he, List.flatten_append]
    simp
  · intro b hb
    rcases List.mem_append.mp hb with h1 | h2
    · exact hall b h1
    · simp only [List.mem_singleton] at h2
      subst h2
      exact hbl

theorem addRing_uvs (data : MeshData) (center : Vec3Q) (rotation : QuatQ)
    (radius : ℚ) (color : Vec4Q) (vCoord : ℚ) (res : Nat) :
    (addRing data center rotation radius color vCoord res).2.uvs
      = data.uvs ++ (List.range (res+1)).map (fun i : ℕ => ((i : ℚ) / (res : ℚ), vCoord)) := rfl

theorem addRing_ringBlocks {res : Nat} {data : MeshData} (h : IsRingBlocks res data.uvs)
    (center : Vec3Q) (rotation : QuatQ) (radius : ℚ) (color : Vec4Q) (vCoord : ℚ) :
    IsRingBlocks res ((addRing data center rotation radius color vCoord res).2.uvs) := by
  rw [addRing_uvs]
  apply isRingBlocks_append res h
  rw [List.map_map]
  rfl

theorem connectRings_uvs (data : MeshData) (a b res : Nat) :
    (connectRings data a b res).uvs = data.uvs := rfl

theorem bottomRing_ringBlocks {res : Nat} {bucket : MeshData}
    (h : IsRingBlocks res bucket.uvs) (cache : Option (Nat × Nat)) (curr : StrandNode) :
    IsRingBlocks res ((bottomRing res cache bucket curr).2.uvs) := by
  cases cache with
  | none => exact addRing_ringBlocks h _ _ _ _ _
  | some pr =>
    obtain ⟨cachedMat, idx⟩ := pr
    simp only [bottomRing]
    by_cases hc : cachedMat = curr.1.material_id
    · rw [if_pos hc]
      exact h
    · rw [if_neg hc]
      exact addRing_ringBlocks h _ _ _ _ _

theorem segBucket_ringBlocks {res : Nat} {bucket : MeshData}
    (h : IsRingBlocks res bucket.uvs) (cache : Option (Nat × Nat))
    (curr next : StrandNode) :
    IsRingBlocks res ((segBucket res cache bucket curr next).2.uvs) := by
  unfold segBucket topRing
  rw [connectRings_uvs]
  exact addRing_ringBlocks (bottomRing_ringBlocks h cache curr) _ _ _ _ _

theorem segLoop_nil (res : Nat) (cache : Option (Nat × Nat)) (b : Buckets)
    (curr : StrandNode) : segLoop res cache b curr [] = b := rfl

theorem segLoop_cons (res : Nat) (cache : Option (Nat × Nat)) (b : Buckets)
    (curr next : StrandNode) (rest : List StrandNode) :
    segLoop res cache b curr (next :: rest)
      = segLoop res
          (some (curr.1.material_id,
            (segBucket res cache (b curr.1.material_id) curr next).1))
          (b.update curr.1.material_id
            (segBucket res cache (b curr.1.material_id) curr next).2)
          next rest := rfl

theorem segLoop_ringBlocks (res : Nat) :
    ∀ (rest : List StrandNode) (curr : StrandNode) (cache : Option (Nat × Nat))
      (b : Buckets),
    (∀ m, IsRingBlocks res ((b m).uvs)) →
    ∀ m, IsRingBlocks res (((segLoop res cache b curr rest) m).uvs) := by
  intro rest
  induction rest with
  | nil =>
    intro curr cache b hb m
    exact hb m
  | cons next rest2 ih =>
    intro curr cache b hb m
    rw [segLoop_cons]
    apply ih
    intro m'
    simp only [Buckets.update]
    split
    · exact segBucket_ringBlocks (hb _) _ _ _
    · exact hb m'

theorem processStrand_ringBlocks (res : Nat) (b : Buckets) (pts : List SkeletonPoint)
    (hb : ∀ m, IsRingBlocks res ((b m).uvs)) :
    ∀ m, IsRingBlocks res (((processStrand res b pts) m).uvs) := by
  intro m
  unfold processStrand
  split
  · exact hb m
  · cases hn : strandNodes (filterPoints pts) with
    | nil => exact hb m
    | cons first rest => exact segLoop_ringBlocks res _ _ _ _ hb m

theorem ringUList_head (res : Nat) : (ringUList res).head? = some 0 := by
  rw [ringUList, List.range_succ_eq_map]
  simp

theorem ringUList_last {res : Nat} (h : 0 < res) : (ringUList res).getLast? = some 1 := by
  have h1 : (List.range (res+1)).getLast? = some res := by
    rw [List.range_succ]
    exact List.getLast?_concat _
  rw [ringUList, List.getLast?_map, h1]
  have hres0 : ((res : ℚ)) ≠ 0 := Nat.cast_ne_zero.mpr (by omega)
  simp [div_self hres0]

/-- C2: UV parameterisation.  The V list starts at `0`; successive V values
satisfy the accumulation recurrence with circumference `2π · avg_radius` and
fallback factor `1` when the circumference is at or below `1e-4`; every ring
block's U runs from `0` to `1`; and V is strictly increasing along a
filtered strand with positive `uv_scale`. -/
theorem c2_uv_parameterization (pts : List SkeletonPoint) (res m : Nat) :
    (vCoords pts).head? = some 0
    ∧ (∀ i, i + 1 < pts.length →
        (vCoords pts).getD (i+1) 0 = (vCoords pts).getD i 0 + segTerm pts i)
    ∧ (0 < res → ∃ blocks : List (List (ℚ × ℚ)),
        ((processStrand res Buckets.empty pts) m).uvs = blocks.flatten
        ∧ ∀ bl ∈ blocks, bl.head?.map Prod.fst = some 0
            ∧ bl.getLast?.map Prod.fst = some 1)
    ∧ ((∀ p ∈ filterPoints pts, 0 < p.uv_scale) →
        List.Chain' (fun a b => a < b) (vCoords (filterPoints pts))) := by
  refine ⟨rfl, fun i hi => vAux_getD pts 0 i hi, fun hres => ?_, fun huv =>
    vAux_mono (filterPoints pts) 0 (filterPoints_chain pts) huv⟩
  obtain ⟨blocks, he, hall⟩ := processStrand_ringBlocks res Buckets.empty pts
    (fun _ => isRingBlocks_nil res) m
  refine ⟨blocks, he, fun bl hbl => ?_⟩
  have hfst := hall bl hbl
  constructor
  · have := List.head?_map Prod.fst bl
    rw [hfst] at this
    rw [← this, ringUList_head]
  · have := List.getLast?_map Prod.fst bl
    rw [hfst] at this
    rw [← this, ringUList_last hres]

theorem c2_uv_parameterization_witness :
    List.Chain' (fun a b => a < b) (vCoords (filterPoints demoStrand)) :=
  (c2_uv_parameterization demoStrand 8 0).2.2.2 (by
    intro p hp
    have hs : List.Sublist (filterPoints demoStrand) demoStrand :=
      filterPoints_sublist demoStrand
    have := hs.mem hp
    simp only [demoStrand, mkPoint, List.mem_cons, List.not_mem_nil, or_false] at this
    rcases this with h | h | h <;> (subst h; norm_num))

/-! ### Ring and index counting lemmas -/

theorem flatMap_const_length {α β : Type} (f : α → List β) (k : Nat)
    (hf : ∀ a, (f a).length = k) :
    ∀ l : List α, (l.flatMap f).length = l.length * k := by
  intro l
  induction l with
  | nil => simp
  | cons a t ih =>
    rw [List.flatMap_cons, List.length_append, hf, ih, List.length_cons,
      Nat.succ_mul]
    omega

theorem addRing_positions_len (data : MeshData) (center : Vec3Q) (rotation : QuatQ)
    (radius : ℚ) (color : Vec4Q) (vCoord : ℚ) (res : Nat) :
    (addRing data center rotation radius color vCoord res).2.positions.length
      = data.positions.length + (res + 1) := by
  simp [addRing]

theorem addRing_indices (data : MeshData) (center : Vec3Q) (rotation : QuatQ)
    (radius : ℚ) (color : Vec4Q) (vCoord : ℚ) (res : Nat) :
    (addRing data center rotation radius color vCoord res).2.indices = data.indices := rfl

theorem connectRings_positions (data : MeshData) (a b res : Nat) :
    (connectRings data a b res).positions = data.positions := rfl

theorem connectRings_indices_len (data : MeshData) (a b res : Nat) :
    (connectRings data a b res).indices.length = data.indices.length + res * 6 := by
  have h := flatMap_const_length
    (fun i => [a + i, b + i, a + i + 1, a + i + 1, b + i, b + i + 1]) 6
    (fun i => rfl) (List.range res)
  simp only [connectRings, List.length_append, h, List.length_range]

theorem bottomRing_none (res : Nat) (bucket : MeshData) (curr : StrandNode) :
    bottomRing res none bucket curr
      = addRing bucket curr.1.position curr.2.1 curr.1.radius curr.1.color curr.2.2 res := rfl

theorem bottomRing_hit {pm : Nat} (res idx : Nat) (bucket : MeshData) (curr : StrandNode)
    (h : pm = curr.1.material_id) :
    bottomRing res (some (pm, idx)) bucket curr = (idx, bucket) := by
  simp [bottomRing, h]

theorem bottomRing_miss {pm : Nat} (res idx : Nat) (bucket : MeshData) (curr : StrandNode)
    (h : pm ≠ curr.1.material_id) :
    bottomRing res (some (pm, idx)) bucket curr
      = addRing bucket curr.1.position curr.2.1 curr.1.radius curr.1.color curr.2.2 res := by
  simp [bottomRing, h]

theorem segBucket_positions_len_none (res : Nat) (bucket : MeshData)
    (curr next : StrandNode) :
    (segBucket res none bucket curr next).2.positions.length
      = bucket.positions.length + 2 * (res + 1) := by
  unfold segBucket topRing
  rw [connectRings_positions, bottomRing_none]
  rw [addRing_positions_len, addRing_positions_len]
  omega

theorem segBucket_positions_len_hit {pm : Nat} (res idx : Nat) (bucket : MeshData)
    (curr next : StrandNode) (h : pm = curr.1.material_id) :
    (segBucket res (some (pm, idx)) bucket curr next).2.positions.length
      = bucket.positions.length + (res + 1) := by
  unfold segBucket topRing
  rw [connectRings_positions, bottomRing_hit res idx bucket curr h, addRing_positions_len]

theorem segBucket_positions_len_miss {pm : Nat} (res idx : Nat) (bucket : MeshData)
    (curr next : StrandNode) (h : pm ≠ curr.1.material_id) :
    (segBucket res (some (pm, idx)) bucket curr next).2.positions.length
      = bucket.positions.length + 2 * (res + 1) := by
  unfold segBucket topRing
  rw [connectRings_positions, bottomRing_miss res idx bucket curr h]
  rw [addRing_positions_len, addRing_positions_len]
  omega

theorem bottomRing_indices (res : Nat) (cache : Option (Nat × Nat)) (bucket : MeshData)
    (curr : StrandNode) :
    (bottomRing res cache bucket curr).2.indices = bucket.indices := by
  cases cache with
  | none => rfl
  | some pr =>
    obtain ⟨pm, idx⟩ := pr
    by_cases h : pm = curr.1.material_id
    · rw [bottomRing_hit res idx bucket curr h]
    · rw [bottomRing_miss res idx bucket curr h, addRing_indices]

theorem segBucket_indices_len (res : Nat) (cache : Option (Nat × Nat))
    (bucket : MeshData) (curr next : StrandNode) :
    (segBucket res cache bucket curr next).2.indices.length
      = bucket.indices.length + res * 6 := by
  unfold segBucket topRing
  rw [connectRings_indices_len, addRing_indices, bottomRing_indices]

theorem dropLast_cons2 {α : Type} (a b : α) (l : List α) :
    (a :: b :: l).dropLast = a :: (b :: l).dropLast := rfl

theorem segLoop_positions_len_aux (res : Nat) :
    ∀ (rest : List StrandNode) (curr : StrandNode) (prev idx : Nat) (b : Buckets)
      (m : Nat),
    ((segLoop res (some (prev, idx)) b curr rest) m).positions.length
      = (b m).positions.length
        + ringCountAux prev m ((curr :: rest).dropLast.map (fun nd => nd.1.material_id))
            * (res + 1) := by
  intro rest
  induction rest with
  | nil =>
    intro curr prev idx b m
    simp [segLoop_nil, ringCountAux]
  | cons next rest2 ih =>
    intro curr prev idx b m
    rw [segLoop_cons, ih, dropLast_cons2, List.map_cons]
    rw [show ∀ a l, ringCountAux prev m (a :: l)
        = (if a = m then (if a = prev then 1 else 2) else 0) + ringCountAux a m l
      from fun a l => rfl]
    simp only [Buckets.update]
    by_cases hm : m = curr.1.material_id
    · subst hm
      rw [if_pos rfl, if_pos rfl]
      by_cases hp : prev = curr.1.material_id
      · rw [segBucket_positions_len_hit res idx (b curr.1.material_id) curr next hp,
          if_pos hp.symm]
        ring
      · rw [segBucket_positions_len_miss res idx (b curr.1.material_id) curr next hp,
          if_neg (fun he => hp he.symm)]
        ring
    · rw [if_neg hm, if_neg (fun he => hm he.symm)]
      ring

theorem segLoop_positions_len_none (res : Nat) (rest : List StrandNode)
    (curr : StrandNode) (b : Buckets) (m : Nat) :
    ((segLoop res none b curr rest) m).positions.length
      = (b m).positions.length
        + ringCount m ((curr :: rest).dropLast.map (fun nd => nd.1.material_id))
            * (res + 1) := by
  cases rest with
  | nil => simp [segLoop_nil, ringCount]
  | cons next rest2 =>
    rw [segLoop_cons, segLoop_positions_len_aux, dropLast_cons2, List.map_cons]
    rw [show ∀ a l, ringCount m (a :: l)
        = (if a = m then 2 else 0) + ringCountAux a m l from fun a l => rfl]
    simp only [Buckets.update]
    by_cases hm : m = curr.1.material_id
    · subst hm
      rw [if_pos rfl, if_pos rfl, segBucket_positions_len_none]
      ring
    · rw [if_neg hm, if_neg (fun he => hm he.symm)]
      ring

theorem segLoop_indices_len (res : Nat) :
    ∀ (rest : List StrandNode) (curr : StrandNode) (cache : Option (Nat × Nat))
      (b : Buckets) (m : Nat),
    ((segLoop res cache b curr rest) m).indices.length
      = (b m).indices.length
        + ((curr :: rest).dropLast.map (fun nd => nd.1.material_id)).count m * (res * 6) := by
  intro rest
  induction rest with
  | nil =>
    intro curr cache b m
    simp [segLoop_nil]
  | cons next rest2 ih =>
    intro curr cache b m
    rw [segLoop_cons, ih, dropLast_cons2, List.map_cons, List.count_cons]
    simp only [Buckets.update]
    by_cases hm : m = curr.1.material_id
    · subst hm
      rw [if_pos rfl, segBucket_indices_len]
      rw [if_pos (beq_iff_eq.mpr rfl)]
      ring
    · rw [if_neg hm]
      rw [if_neg (by simp only [beq_iff_eq]; exact fun he => hm he.symm)]
      ring

theorem rotSteps_length (pts : List SkeletonPoint) :
    ∀ (count : Nat) (rot : QuatQ) (i : Nat), (rotSteps pts rot i count).length = count := by
  intro count
  induction count with
  | zero => intro rot i; rfl
  | succ k ih =>
    intro rot i
    simp only [rotSteps, List.length_cons, ih]

theorem rotationsList_length (pts : List SkeletonPoint) (h : pts ≠ []) :
    (rotationsList pts).length = pts.length := by
  cases pts with
  | nil => exact absurd rfl h
  | cons p rest =>
    simp only [rotationsList, List.length_cons, rotSteps_length]
    omega

theorem vAux_length : ∀ (l : List SkeletonPoint) (cum : ℚ),
    (vAux cum l).length = l.length - 1 := by
  intro l
  induction l with
  | nil => intro cum; rfl
  | cons a t ih =>
    cases t with
    | nil => intro cum; rfl
    | cons b rest =>
      intro cum
      rw [vAux_cons2]
      simp only [List.length_cons, ih]
      omega

theorem vCoords_length (pts : List SkeletonPoint) (h : pts ≠ []) :
    (vCoords pts).length = pts.length := by
  have hl : 1 ≤ pts.length := by
    cases pts with
    | nil => exact absurd rfl h
    | cons a t => simp
  simp only [vCoords, List.length_cons, vAux_length]
  omega

theorem strandNodes_length (pts : List SkeletonPoint) (h : pts ≠ []) :
    (strandNodes pts).length = pts.length := by
  unfold strandNodes
  rw [List.length_zip, List.length_zip, rotationsList_length pts h, vCoords_length pts h]
  omega

theorem map_dropLast' {α β : Type} (f : α → β) :
    ∀ l : List α, l.dropLast.map f = (l.map f).dropLast := by
  intro l
  induction l with
  | nil => rfl
  | cons a t ih =>
    cases t with
    | nil => rfl
    | cons b rest =>
      show f a :: (b :: rest).dropLast.map f = f a :: ((b :: rest).map f).dropLast
      rw [ih]

theorem dropLast_short {α : Type} (l : List α) (h : l.length < 2) : l.dropLast = [] := by
  match l with
  | [] => rfl
  | [a] => rfl
  | a :: b :: t =>
    simp only [List.length_cons] at h
    omega

theorem strandNodes_mats (pts : List SkeletonPoint) (h : pts ≠ []) :
    (strandNodes pts).dropLast.map (fun nd => nd.1.material_id) = segMats pts := by
  unfold strandNodes segMats
  have hlen : pts.length ≤ ((rotationsList pts).zip (vCoords pts)).length := by
    rw [List.length_zip, rotationsList_length pts h, vCoords_length pts h]
    omega
  rw [show (fun nd : StrandNode => nd.1.material_id)
      = (fun p : SkeletonPoint => p.material_id) ∘ Prod.fst from rfl]
  rw [← List.map_map, map_dropLast' Prod.fst, List.map_fst_zip pts _ hlen,
    map_dropLast']

theorem ringCountAux_replicate (m : Nat) :
    ∀ n, ringCountAux m m (List.replicate n m) = n := by
  intro n
  induction n with
  | zero => rfl
  | succ k ih =>
    rw [List.replicate_succ]
    show (if m = m then (if m = m then 1 else 2) else 0)
        + ringCountAux m m (List.replicate k m) = k + 1
    rw [if_pos rfl, if_pos rfl, ih]
    omega

theorem ringCount_replicate (m n : Nat) (h : 1 ≤ n) :
    ringCount m (List.replicate n m) = n + 1 := by
  cases n with
  | zero => omega
  | succ k =>
    rw [List.replicate_succ]
    show (if m = m then 2 else 0) + ringCountAux m m (List.replicate k m) = k + 1 + 1
    rw [if_pos rfl, ringCountAux_replicate]
    omega

theorem ringCountAux_chain_ne (m : Nat) :
    ∀ (l : List Nat) (prev : Nat), List.Chain' (fun a b => a ≠ b) (prev :: l) →
      ringCountAux prev m l = 2 * l.count m := by
  intro l
  induction l with
  | nil => intro prev _; rfl
  | cons a rest ih =>
    intro prev hc
    have h1 : prev ≠ a := (List.chain'_cons.mp hc).1
    have h2 := (List.chain'_cons.mp hc).2
    show (if a = m then (if a = prev then 1 else 2) else 0)
        + ringCountAux a m rest = 2 * (a :: rest).count m
    rw [ih a h2]
    by_cases ham : a = m
    · subst ham
      rw [if_pos rfl, if_neg (fun he => h1 he.symm), List.count_cons_self]
      omega
    · rw [if_neg ham, List.count_cons_of_ne (fun he => ham he.symm)]
      omega

theorem ringCount_chain_ne (m : Nat) (l : List Nat)
    (h : List.Chain' (fun a b => a ≠ b) l) : ringCount m l = 2 * l.count m := by
  cases l with
  | nil => rfl
  | cons a rest =>
    show (if a = m then 2 else 0) + ringCountAux a m rest = 2 * (a :: rest).count m
    rw [ringCountAux_chain_ne m rest a h]
    by_cases ham : a = m
    · subst ham
      rw [if_pos rfl, List.count_cons_self]
      omega
    · rw [if_neg ham, List.count_cons_of_ne (fun he => ham he.symm)]
      omega

theorem altMats_chain : ∀ (n : Nat) (a b : Nat), a ≠ b →
    List.Chain' (fun x y => x ≠ y) (altMats a b n) := by
  intro n
  induction n with
  | zero => intro a b _; simp [altMats]
  | succ k ih =>
    intro a b h
    cases k with
    | zero => simp [altMats]
    | succ j =>
      show List.Chain' (fun x y => x ≠ y) (a :: b :: altMats a b j)
      exact List.chain'_cons.mpr ⟨h, ih b a h.symm⟩

theorem altMats_count : ∀ (n : Nat) (a b : Nat), a ≠ b →
    (altMats a b n).count a + (altMats a b n).count b = n := by
  intro n
  induction n with
  | zero => intro a b _; rfl
  | succ k ih =>
    intro a b h
    show (a :: altMats b a k).count a + (a :: altMats b a k).count b = k + 1
    rw [List.count_cons_self, List.count_cons_of_ne (fun he => h he.symm)]
    have := ih b a h.symm
    omega

/-- C1: per-bucket vertex and index counts of the tube builder: each bucket
holds `ringCount · (res + 1)` vertices and `segments_in_bucket · res · 6`
triangle indices; `n` same-material segments create `n + 1` rings, while `n`
segments alternating between two materials create `2 n` rings in total. -/
theorem c1_tube_bucket_counts (pts : List SkeletonPoint) (res m : Nat) :
    ((processStrand res Buckets.empty pts) m).positions.length
        = ringCount m (segMats (filterPoints pts)) * (res + 1)
    ∧ ((processStrand res Buckets.empty pts) m).indices.length
        = (segMats (filterPoints pts)).count m * (res * 6)
    ∧ (∀ n, 1 ≤ n → ringCount m (List.replicate n m) = n + 1)
    ∧ (∀ a b n, a ≠ b →
        ringCount a (altMats a b n) + ringCount b (altMats a b n) = 2 * n) := by
  refine ⟨?_, ?_, fun n hn => ringCount_replicate m n hn, fun a b n hab => ?_⟩
  · unfold processStrand
    by_cases hlen : (filterPoints pts).length < 2
    · rw [if_pos hlen]
      rw [show segMats (filterPoints pts) = [] from by
        rw [segMats, dropLast_short _ hlen]; rfl]
      simp [Buckets.empty, MeshData.empty, ringCount]
    · rw [if_neg hlen]
      have hne : filterPoints pts ≠ [] := by
        intro he
        rw [he] at hlen
        exact hlen (by simp)
      cases hn : strandNodes (filterPoints pts) with
      | nil =>
        have := strandNodes_length (filterPoints pts) hne
        rw [hn] at this
        simp only [List.length_nil] at this
        omega
      | cons first rest =>
        rw [segLoop_positions_len_none]
        rw [show (first :: rest) = strandNodes (filterPoints pts) from hn.symm]
        rw [strandNodes_mats _ hne]
        simp [Buckets.empty, MeshData.empty]
  · unfold processStrand
    by_cases hlen : (filterPoints pts).length < 2
    · rw [if_pos hlen]
      rw [show segMats (filterPoints pts) = [] from by
        rw [segMats, dropLast_short _ hlen]; rfl]
      simp [Buckets.empty, MeshData.empty]
    · rw [if_neg hlen]
      have hne : filterPoints pts ≠ [] := by
        intro he
        rw [he] at hlen
        exact hlen (by simp)
      cases hn : strandNodes (filterPoints pts) with
      | nil =>
        have := strandNodes_length (filterPoints pts) hne
        rw [hn] at this
        simp only [List.length_nil] at this
        omega
      | cons first rest =>
        rw [segLoop_indices_len]
        rw [show (first :: rest) = strandNodes (filterPoints pts) from hn.symm]
        rw [strandNodes_mats _ hne]
        simp [Buckets.empty, MeshData.empty]
  · rw [ringCount_chain_ne a _ (altMats_chain n a b hab),
      ringCount_chain_ne b _ (altMats_chain n a b hab)]
    have := altMats_count n a b hab
    omega

theorem c1_tube_bucket_counts_witness :
    ringCount 0 (List.replicate 3 0) = 4
    ∧ ringCount 0 (altMats 0 1 3) + ringCount 1 (altMats 0 1 3) = 6 :=
  ⟨(c1_tube_bucket_counts [] 8 0).2.2.1 3 (by decide),
   by
    have h := (c1_tube_bucket_counts [] 8 0).2.2.2 0 1 3 (by decide)
    simpa using h⟩

/-! ### uv_scale linearity lemmas -/

theorem scaleUv_position (k : ℚ) (p : SkeletonPoint) : (scaleUv k p).position = p.position := rfl

theorem scaleUv_default (k : ℚ) : scaleUv k default = default := by
  simp [scaleUv, default]

theorem scaleUv_radius (k : ℚ) (p : SkeletonPoint) : (scaleUv k p).radius = p.radius := rfl

theorem scaleUv_uv (k : ℚ) (p : SkeletonPoint) : (scaleUv k p).uv_scale = k * p.uv_scale := rfl

theorem filterAux_scale (k : ℚ) :
    ∀ (l : List SkeletonPoint) (last : SkeletonPoint),
      filterAux (scaleUv k last) (l.map (scaleUv k)) = (filterAux last l).map (scaleUv k) := by
  intro l
  induction l with
  | nil => intro last; rfl
  | cons p rest ih =>
    intro last
    rw [List.map_cons]
    rw [show filterAux last (p :: rest)
        = (if Vec3Q.distSq last.position p.position > 1/1000000
           then p :: filterAux p rest else filterAux last rest) from rfl]
    rw [show filterAux (scaleUv k last) (scaleUv k p :: rest.map (scaleUv k))
        = (if Vec3Q.distSq (scaleUv k last).position (scaleUv k p).position > 1/1000000
           then scaleUv k p :: filterAux (scaleUv k p) (rest.map (scaleUv k))
           else filterAux (scaleUv k last) (rest.map (scaleUv k))) from rfl]
    rw [scaleUv_position, scaleUv_position]
    by_cases hcond : Vec3Q.distSq last.position p.position > 1/1000000
    · rw [if_pos hcond, if_pos hcond, List.map_cons, ih p]
    · rw [if_neg hcond, if_neg hcond]
      exact ih last

theorem filterPoints_scale (k : ℚ) (pts : List SkeletonPoint) :
    filterPoints (pts.map (scaleUv k)) = (filterPoints pts).map (scaleUv k) := by
  cases pts with
  | nil => rfl
  | cons p rest =>
    rw [List.map_cons]
    show scaleUv k p :: filterAux (scaleUv k p) (rest.map (scaleUv k))
      = (p :: filterAux p rest).map (scaleUv k)
    rw [List.map_cons, filterAux_scale]

theorem getD_scale (k : ℚ) (pts : List SkeletonPoint) (i : Nat) :
    (pts.map (scaleUv k)).getD i default = scaleUv k (pts.getD i default) := by
  rw [List.getD_eq_getElem?_getD, List.getD_eq_getElem?_getD, List.getElem?_map]
  cases h : pts[i]? with
  | none => simp [scaleUv_default]
  | some p => simp

theorem posAt_scale (k : ℚ) (pts : List SkeletonPoint) (i : Nat) :
    posAt (pts.map (scaleUv k)) i = posAt pts i := by
  unfold posAt
  rw [getD_scale, scaleUv_position]

theorem tangentAt_scale (k : ℚ) (pts : List SkeletonPoint) (i : Nat) :
    tangentAt (pts.map (scaleUv k)) i = tangentAt pts i := by
  unfold tangentAt
  rw [List.length_map]
  simp only [posAt_scale]

theorem rotStep_scale (k : ℚ) (pts : List SkeletonPoint) (i : Nat) (rot : QuatQ) :
    rotStep (pts.map (scaleUv k)) i rot = rotStep pts i rot := by
  unfold rotStep
  rw [tangentAt_scale]

theorem rotSteps_scale (k : ℚ) (pts : List SkeletonPoint) :
    ∀ (count : Nat) (rot : QuatQ) (i : Nat),
      rotSteps (pts.map (scaleUv k)) rot i count = rotSteps pts rot i count := by
  intro count
  induction count with
  | zero => intro rot i; rfl
  | succ c ih =>
    intro rot i
    simp only [rotSteps, rotStep_scale, ih]

theorem rotationsList_scale (k : ℚ) (pts : List SkeletonPoint) :
    rotationsList (pts.map (scaleUv k)) = rotationsList pts := by
  cases pts with
  | nil => rfl
  | cons p rest =>
    rw [List.map_cons]
    show (let t0 := Vec3Q.normalizeOrZero (Vec3Q.sub
           (posAt (scaleUv k p :: rest.map (scaleUv k)) 1)
           (posAt (scaleUv k p :: rest.map (scaleUv k)) 0))
         let rot0 := QuatQ.mul (robustRotationArc
           (QuatQ.rotate (scaleUv k p).rotation Vec3Q.unitY) t0) (scaleUv k p).rotation
         rot0 :: rotSteps (scaleUv k p :: rest.map (scaleUv k)) rot0 1
           ((scaleUv k p :: rest.map (scaleUv k)).length - 1))
      = rotationsList (p :: rest)
    rw [show (scaleUv k p :: rest.map (scaleUv k)) = (p :: rest).map (scaleUv k) from rfl]
    simp only [posAt_scale, rotSteps_scale, List.length_map]
    rfl

theorem segTerm_scale (k : ℚ) (pts : List SkeletonPoint) (i : Nat) :
    segTerm (pts.map (scaleUv k)) i = k * segTerm pts i := by
  unfold segTerm
  simp only [posAt_scale, getD_scale, scaleUv_radius, scaleUv_uv]
  ring

theorem vAux_scale (k : ℚ) :
    ∀ (l : List SkeletonPoint) (cum : ℚ),
      vAux (k * cum) (l.map (scaleUv k)) = (vAux cum l).map (fun v => k * v) := by
  intro l
  induction l with
  | nil => intro cum; rfl
  | cons a t ih =>
    cases t with
    | nil => intro cum; rfl
    | cons b rest =>
      intro cum
      rw [vAux_cons2 cum a b rest]
      rw [show (a :: b :: rest).map (scaleUv k)
          = scaleUv k a :: scaleUv k b :: rest.map (scaleUv k) from rfl]
      rw [vAux_cons2 (k * cum) (scaleUv k a) (scaleUv k b) (rest.map (scaleUv k))]
      rw [List.map_cons]
      have hterm : segTerm (scaleUv k a :: scaleUv k b :: rest.map (scaleUv k)) 0
          = k * segTerm (a :: b :: rest) 0 := segTerm_scale k (a :: b :: rest) 0
      rw [hterm]
      have harg : k * cum + k * segTerm (a :: b :: rest) 0
          = k * (cum + segTerm (a :: b :: rest) 0) := by ring
      rw [harg]
      congr 1
      exact ih (cum + segTerm (a :: b :: rest) 0)

theorem vCoords_scale (k : ℚ) (pts : List SkeletonPoint) :
    vCoords (pts.map (scaleUv k)) = (vCoords pts).map (fun v => k * v) := by
  unfold vCoords
  rw [List.map_cons]
  have h := vAux_scale k pts 0
  rw [mul_zero] at h
  rw [h, mul_zero]

theorem scaleV_empty (k : ℚ) : scaleV k MeshData.empty = MeshData.empty := rfl

theorem addRing_scale (k : ℚ) (d : MeshData) (center : Vec3Q) (rotation : QuatQ)
    (radius : ℚ) (color : Vec4Q) (v : ℚ) (res : Nat) :
    addRing (scaleV k d) center rotation radius color (k * v) res
      = ((addRing d center rotation radius color v res).1,
         scaleV k (addRing d center rotation radius color v res).2) := by
  unfold addRing scaleV
  simp only [List.length_map, List.map_append, List.map_map]
  rfl

theorem connectRings_scale (k : ℚ) (d : MeshData) (a b res : Nat) :
    connectRings (scaleV k d) a b res = scaleV k (connectRings d a b res) := rfl

theorem nodeScale_mat (k : ℚ) (nd : StrandNode) :
    (nodeScale k nd).1.material_id = nd.1.material_id := rfl

theorem bottomRing_scale (k : ℚ) (res : Nat) (cache : Option (Nat × Nat))
    (bucket : MeshData) (curr : StrandNode) :
    bottomRing res cache (scaleV k bucket) (nodeScale k curr)
      = ((bottomRing res cache bucket curr).1,
         scaleV k (bottomRing res cache bucket curr).2) := by
  cases cache with
  | none =>
    rw [bottomRing_none, bottomRing_none]
    exact addRing_scale k bucket curr.1.position curr.2.1 curr.1.radius
      curr.1.color curr.2.2 res
  | some pr =>
    obtain ⟨pm, idx⟩ := pr
    by_cases h : pm = curr.1.material_id
    · rw [bottomRing_hit res idx (scaleV k bucket) (nodeScale k curr) h,
        bottomRing_hit res idx bucket curr h]
    · rw [bottomRing_miss res idx (scaleV k bucket) (nodeScale k curr) h,
        bottomRing_miss res idx bucket curr h]
      exact addRing_scale k bucket curr.1.position curr.2.1 curr.1.radius
        curr.1.color curr.2.2 res

theorem topRing_scale (k : ℚ) (res : Nat) (bucket : MeshData) (next : StrandNode) :
    topRing res (scaleV k bucket) (nodeScale k next)
      = ((topRing res bucket next).1, scaleV k (topRing res bucket next).2) := by
  unfold topRing
  exact addRing_scale k bucket next.1.position next.2.1 next.1.radius
    next.1.color next.2.2 res

theorem segBucket_scale (k : ℚ) (res : Nat) (cache : Option (Nat × Nat))
    (bucket : MeshData) (curr next : StrandNode) :
    segBucket res cache (scaleV k bucket) (nodeScale k curr) (nodeScale k next)
      = ((segBucket res cache bucket curr next).1,
         scaleV k (segBucket res cache bucket curr next).2) := by
  simp only [segBucket, bottomRing_scale, topRing_scale, connectRings_scale]

theorem update_scale (k : ℚ) (b : Buckets) (m : Nat) (d : MeshData) :
    Buckets.update (fun m2 => scaleV k (b m2)) m (scaleV k d)
      = fun m2 => scaleV k (Buckets.update b m d m2) := by
  funext m2
  simp only [Buckets.update]
  split
  · rfl
  · rfl

theorem segLoop_scale (k : ℚ) (res : Nat) :
    ∀ (rest : List StrandNode) (curr : StrandNode) (cache : Option (Nat × Nat))
      (b : Buckets),
    segLoop res cache (fun m => scaleV k (b m)) (nodeScale k curr)
        (rest.map (nodeScale k))
      = fun m => scaleV k (segLoop res cache b curr rest m) := by
  intro rest
  induction rest with
  | nil => intro curr cache b; rfl
  | cons next rest2 ih =>
    intro curr cache b
    rw [List.map_cons, segLoop_cons, segLoop_cons]
    rw [nodeScale_mat, segBucket_scale]
    show segLoop res
        (some (curr.1.material_id,
          (segBucket res cache (b curr.1.material_id) curr next).1))
        (Buckets.update (fun m => scaleV k (b m)) curr.1.material_id
          (scaleV k (segBucket res cache (b curr.1.material_id) curr next).2))
        (nodeScale k next) (rest2.map (nodeScale k)) = _
    rw [update_scale]
    exact ih next _ (Buckets.update b curr.1.material_id
      (segBucket res cache (b curr.1.material_id) curr next).2)

theorem zip_zip_map {α β γ α2 γ2 : Type} (f : α → α2) (g : γ → γ2) :
    ∀ (l1 : List α) (l2 : List β) (l3 : List γ),
      (l1.map f).zip (l2.zip (l3.map g))
        = (l1.zip (l2.zip l3)).map (fun x => (f x.1, x.2.1, g x.2.2)) := by
  intro l1
  induction l1 with
  | nil => intro l2 l3; rfl
  | cons a t1 ih =>
    intro l2 l3
    cases l2 with
    | nil => rfl
    | cons r t2 =>
      cases l3 with
      | nil => rfl
      | cons v t3 =>
        simp only [List.map_cons, List.zip_cons_cons, ih]

theorem strandNodes_scale (k : ℚ) (pts : List SkeletonPoint) :
    strandNodes (pts.map (scaleUv k)) = (strandNodes pts).map (nodeScale k) := by
  unfold strandNodes
  rw [rotationsList_scale, vCoords_scale, zip_zip_map (scaleUv k) (fun v => k * v)]
  rfl

theorem processStrand_scale (k : ℚ) (res : Nat) (pts : List SkeletonPoint) (m : Nat) :
    processStrand res Buckets.empty (pts.map (scaleUv k)) m
      = scaleV k (processStrand res Buckets.empty pts m) := by
  unfold processStrand
  rw [filterPoints_scale, List.length_map]
  by_cases hlen : (filterPoints pts).length < 2
  · rw [if_pos hlen, if_pos hlen]
    rfl
  · rw [if_neg hlen, if_neg hlen, strandNodes_scale]
    cases hn : strandNodes (filterPoints pts) with
    | nil => rfl
    | cons first rest =>
      rw [List.map_cons]
      have hb : (fun m2 => scaleV k (Buckets.empty m2)) = Buckets.empty := by
        funext m2
        exact scaleV_empty k
      have h := segLoop_scale k res rest first none Buckets.empty
      rw [hb] at h
      exact congrFun h m

/-- C8: multiplying every point's `uv_scale` by `k > 0` multiplies every
accumulated V coordinate by `k` and leaves positions, normals, colors, U
coordinates and triangle indices unchanged. -/
theorem c8_uv_scale_linearity (k : ℚ) (pts : List SkeletonPoint) (res m : Nat)
    (_hk : 0 < k) :
    vCoords (filterPoints (pts.map (scaleUv k)))
        = (vCoords (filterPoints pts)).map (fun v => k * v)
    ∧ (processStrand res Buckets.empty (pts.map (scaleUv k)) m).positions
        = (processStrand res Buckets.empty pts m).positions
    ∧ (processStrand res Buckets.empty (pts.map (scaleUv k)) m).normals
        = (processStrand res Buckets.empty pts m).normals
    ∧ (processStrand res Buckets.empty (pts.map (scaleUv k)) m).colors
        = (processStrand res Buckets.empty pts m).colors
    ∧ (processStrand res Buckets.empty (pts.map (scaleUv k)) m).indices
        = (processStrand res Buckets.empty pts m).indices
    ∧ (processStrand res Buckets.empty (pts.map (scaleUv k)) m).uvs
        = (processStrand res Buckets.empty pts m).uvs.map (fun uv => (uv.1, k * uv.2)) := by
  have h := processStrand_scale k res pts m
  refine ⟨?_, ?_, ?_, ?_, ?_, ?_⟩
  · rw [filterPoints_scale, vCoords_scale]
  · rw [h]; rfl
  · rw [h]; rfl
  · rw [h]; rfl
  · rw [h]; rfl
  · rw [h]; rfl

theorem c8_uv_scale_linearity_witness :
    vCoords (filterPoints (demoStrand.map (scaleUv 2)))
      = (vCoords (filterPoints demoStrand)).map (fun v => 2 * v) :=
  (c8_uv_scale_linearity 2 demoStrand 8 0 (by norm_num)).1

/-! ### Collider orientation (glam shortest-arc) lemmas -/

theorem anyOrthonormal_unitY : Vec3Q.anyOrthonormalVector Vec3Q.unitY = ⟨0, 0, -1⟩ := by
  simp only [Vec3Q.anyOrthonormalVector, Vec3Q.unitY]
  norm_num

/-- C5 (amended): the collider orients each segment with the library's
built-in shortest-arc rotation from `Y` (glam `from_rotation_arc`, threshold
`1 - 2ε`), which returns the identity in the colinear singularity and a
finite half-turn about the perpendicular unit axis `(0, 0, -1)` in the
antiparallel singularity — the same robustness scheme as frame transport,
but not the mesher's own `robust_rotation_arc` (whose threshold is
`0.9999`; see the counterexample). -/
theorem c5_collider_orientation (minRadius : ℚ) (s e : SkeletonPoint) :
    (∀ c, segCollider minRadius s e = some c →
        c.rotation = fromRotationArc Vec3Q.unitY
          (Vec3Q.sdiv (Vec3Q.sub e.position s.position)
            (Vec3Q.length (Vec3Q.sub e.position s.position))))
    ∧ (∀ d : Vec3Q, Vec3Q.dot Vec3Q.unitY d < -oneMinusEps →
        fromRotationArc Vec3Q.unitY d = QuatQ.fromAxisAngle ⟨0, 0, -1⟩ piQ)
    ∧ (Vec3Q.dot ⟨0, 0, -1⟩ Vec3Q.unitY = 0
        ∧ Vec3Q.lengthSq (⟨0, 0, -1⟩ : Vec3Q) = 1)
    ∧ (∀ d : Vec3Q, oneMinusEps < Vec3Q.dot Vec3Q.unitY d →
        fromRotationArc Vec3Q.unitY d = QuatQ.identity) := by
  refine ⟨fun c hc => ?_, fun d hd => ?_, ⟨?_, ?_⟩, fun d hd => ?_⟩
  · unfold segCollider at hc
    by_cases hmin : (s.radius + e.radius) * (1/2) < minRadius
    · rw [if_pos hmin] at hc
      exact absurd hc (by simp)
    · rw [if_neg hmin] at hc
      by_cases hlen : Vec3Q.length (Vec3Q.sub e.position s.position) < 1/10000
      · rw [if_pos hlen] at hc
        exact absurd hc (by simp)
      · rw [if_neg hlen] at hc
        have hc2 := Option.some_injective _ hc
        subst hc2
        rfl
  · unfold fromRotationArc
    rw [if_neg (by
      have h1 : (0:ℚ) < oneMinusEps := by norm_num [oneMinusEps]
      push_neg
      linarith), if_pos hd, anyOrthonormal_unitY]
  · norm_num [Vec3Q.dot, Vec3Q.unitY]
  · norm_num [Vec3Q.lengthSq, Vec3Q.dot]
  · unfold fromRotationArc
    rw [if_pos hd]

theorem c5_collider_orientation_witness :
    fromRotationArc Vec3Q.unitY ⟨0, -1, 0⟩ = QuatQ.fromAxisAngle ⟨0, 0, -1⟩ piQ
    ∧ fromRotationArc Vec3Q.unitY ⟨0, 1, 0⟩ = QuatQ.identity :=
  ⟨(c5_collider_orientation 0 default default).2.1 ⟨0, -1, 0⟩
      (by norm_num [Vec3Q.dot, Vec3Q.unitY, oneMinusEps]),
   (c5_collider_orientation 0 default default).2.2.2 ⟨0, 1, 0⟩
      (by norm_num [Vec3Q.dot, Vec3Q.unitY, oneMinusEps])⟩

/-- C5 counterexample: at the concrete segment from the origin towards
`cexDir`, the collider's rotation (glam `from_rotation_arc`, which takes its
ordinary branch since `dot ≈ -0.999998 > -(1 - 2ε)`) differs from the frame
transport's `robust_rotation_arc` (which takes its 180° branch since
`dot < -0.9999`) — so the collider does not use the same robust handling. -/
theorem c5_collider_orientation_cex :
    (segCollider 0 cexP0 cexP1).map PositionedCollider.rotation
        = some (fromRotationArc Vec3Q.unitY cexDir)
    ∧ fromRotationArc Vec3Q.unitY cexDir ≠ robustRotationArc Vec3Q.unitY cexDir := by
  have hsub : Vec3Q.sub cexP1.position cexP0.position = cexDir := by
    simp only [cexP0, cexP1, mkPoint, Vec3Q.sub, cexDir]
    norm_num
  have hlenq : Vec3Q.length cexDir = 1 := by
    have h2 : Vec3Q.lengthSq cexDir = 1 * 1 := by
      simp only [cexDir, Vec3Q.lengthSq, Vec3Q.dot]
      norm_num
    rw [Vec3Q.length, h2, qsqrt_of_sq (by norm_num : (0:ℚ) ≤ 1)]
  have hdir : Vec3Q.sdiv cexDir 1 = cexDir := by
    simp only [Vec3Q.sdiv, cexDir]
    norm_num
  have hdot : Vec3Q.dot Vec3Q.unitY cexDir = -(999999/1000001) := by
    simp only [Vec3Q.dot, Vec3Q.unitY, cexDir]
    norm_num
  constructor
  · unfold segCollider
    rw [if_neg (by norm_num [cexP0, cexP1, mkPoint] :
      ¬ ((cexP0.radius + cexP1.radius) * (1/2) < 0))]
    rw [hsub]
    simp only [hlenq, hdir]
    rw [if_neg (by norm_num : ¬ ((1:ℚ) < 1/10000))]
    rfl
  · intro heq
    have hglam : (fromRotationArc Vec3Q.unitY cexDir).z < 0 := by
      unfold fromRotationArc
      rw [hdot]
      rw [if_neg (by norm_num [oneMinusEps]), if_neg (by norm_num [oneMinusEps])]
      have hcross : Vec3Q.cross Vec3Q.unitY cexDir = ⟨0, 0, -(2000/1000001)⟩ := by
        simp only [Vec3Q.cross, Vec3Q.unitY, cexDir]
        norm_num
      rw [hcross]
      show (QuatQ.normalize ⟨0, 0, -(2000/1000001), 1 + -(999999/1000001)⟩).z < 0
      unfold QuatQ.normalize
      have hls : QuatQ.lengthSq ⟨0, 0, -(2000/1000001), 1 + -(999999/1000001)⟩
          = 4000004/1000002000001 := by
        norm_num [QuatQ.lengthSq]
      rw [hls]
      have hqs : 0 < qsqrt (4000004/1000002000001) := qsqrt_pos (by norm_num)
      show (-(2000/1000001) : ℚ) / qsqrt (4000004/1000002000001) < 0
      exact div_neg_of_neg_of_pos (by norm_num) hqs
    have hrob : 0 < (robustRotationArc Vec3Q.unitY cexDir).z := by
      unfold robustRotationArc
      rw [hdot]
      rw [if_pos (by norm_num)]
      have haxis : Vec3Q.normalize (Vec3Q.cross Vec3Q.unitX Vec3Q.unitY) = ⟨0, 0, 1⟩ := by
        have hc : Vec3Q.cross Vec3Q.unitX Vec3Q.unitY = ⟨0, 0, 1⟩ := by
          simp only [Vec3Q.cross, Vec3Q.unitX, Vec3Q.unitY]
          norm_num
        rw [hc]
        have hl : Vec3Q.length (⟨0, 0, 1⟩ : Vec3Q) = 1 := by
          have h2 : Vec3Q.lengthSq (⟨0, 0, 1⟩ : Vec3Q) = 1 * 1 := by
            norm_num [Vec3Q.lengthSq, Vec3Q.dot]
          rw [Vec3Q.length, h2, qsqrt_of_sq (by norm_num : (0:ℚ) ≤ 1)]
        unfold Vec3Q.normalize
        rw [hl]
        simp only [Vec3Q.sdiv]
        norm_num
      rw [if_pos (by norm_num [Vec3Q.unitY] : |Vec3Q.unitY.x| < 4/5), haxis]
      show 0 < (QuatQ.fromAxisAngle ⟨0, 0, 1⟩ piQ).z
      unfold QuatQ.fromAxisAngle
      show 0 < 1 * sinQ (piQ / 2)
      rw [one_mul]
      norm_num [sinQ, piQ]
    have hz := congrArg QuatQ.z heq
    rw [hz] at hglam
    linarith

/-! ### Material entry lemmas -/

theorem sortedInsert_length (x : Nat) : ∀ l : List Nat,
    (sortedInsert x l).length = l.length + 1 := by
  intro l
  induction l with
  | nil => rfl
  | cons y ys ih =>
    unfold sortedInsert
    split
    · rfl
    · simp only [List.length_cons, ih]

theorem sortNat_length (l : List Nat) : (sortNat l).length = l.length := by
  induction l with
  | nil => rfl
  | cons a t ih =>
    show (sortedInsert a (sortNat t)).length = t.length + 1
    rw [sortedInsert_length, ih]

/-- C6 (amended): one material entry per bucket, default settings on a
missing id, and emissive channels `min (color * strength) 1` — an upper
clamp only, which agrees with the specified `[0, 1]` clamp whenever the
emission color and strength are non-negative (the counterexample shows the
two differ on a negative product). -/
theorem c6_material_entries (mb : List (Nat × GlbMesh))
    (ms : List (Nat × MaterialSettings)) (matId : Nat) (s : MaterialSettings) :
    (glbMaterials (sortNat (keysA mb))
        (fun k => (lookupA k ms).getD defaultMaterialSettings)).length
      = (keysA mb).length
    ∧ (lookupA matId ms = none →
        (lookupA matId ms).getD defaultMaterialSettings = defaultMaterialSettings)
    ∧ (materialEntry matId s).emissive
        = ⟨min (s.emission_color.x * s.emission_strength) 1,
           min (s.emission_color.y * s.emission_strength) 1,
           min (s.emission_color.z * s.emission_strength) 1⟩
    ∧ (0 ≤ s.emission_strength → 0 ≤ s.emission_color.x →
        (materialEntry matId s).emissive.x
          = clamp01 (s.emission_color.x * s.emission_strength))
    ∧ (0 ≤ s.emission_strength → 0 ≤ s.emission_color.y →
        (materialEntry matId s).emissive.y
          = clamp01 (s.emission_color.y * s.emission_strength))
    ∧ (0 ≤ s.emission_strength → 0 ≤ s.emission_color.z →
        (materialEntry matId s).emissive.z
          = clamp01 (s.emission_color.z * s.emission_strength)) := by
  refine ⟨?_, fun h => by rw [h]; rfl, rfl, fun h1 h2 => ?_, fun h1 h2 => ?_,
    fun h1 h2 => ?_⟩
  · unfold glbMaterials
    rw [List.length_map, sortNat_length]
  · show min (s.emission_color.x * s.emission_strength) 1
        = clamp01 (s.emission_color.x * s.emission_strength)
    unfold clamp01
    rw [max_eq_left (mul_nonneg h2 h1)]
  · show min (s.emission_color.y * s.emission_strength) 1
        = clamp01 (s.emission_color.y * s.emission_strength)
    unfold clamp01
    rw [max_eq_left (mul_nonneg h2 h1)]
  · show min (s.emission_color.z * s.emission_strength) 1
        = clamp01 (s.emission_color.z * s.emission_strength)
    unfold clamp01
    rw [max_eq_left (mul_nonneg h2 h1)]

theorem c6_material_entries_witness :
    (lookupA 5 ([] : List (Nat × MaterialSettings))).getD defaultMaterialSettings
        = defaultMaterialSettings
    ∧ (materialEntry 5 defaultMaterialSettings).emissive.x
        = clamp01 (defaultMaterialSettings.emission_color.x
            * defaultMaterialSettings.emission_strength) :=
  ⟨(c6_material_entries [] [] 5 defaultMaterialSettings).2.1 rfl,
   (c6_material_entries [] [] 5 defaultMaterialSettings).2.2.2.1
     (by norm_num [defaultMaterialSettings])
     (by norm_num [defaultMaterialSettings])⟩

/-- C6 counterexample: with a negative emissive channel the exporter's
`min (c * e) 1` is `-1`, not the `[0, 1]`-clamped value `0` the claim
states. -/
theorem c6_material_entries_cex :
    (materialEntry 7 c6BadSettings).emissive.x
      ≠ clamp01 (c6BadSettings.emission_color.x * c6BadSettings.emission_strength) := by
  show min (c6BadSettings.emission_color.x * c6BadSettings.emission_strength) 1
      ≠ clamp01 (c6BadSettings.emission_color.x * c6BadSettings.emission_strength)
  norm_num [c6BadSettings, defaultMaterialSettings, clamp01]

/-! ### GLB container lemmas -/

theorem pad4_ge (n : Nat) : n ≤ pad4 n := by
  unfold pad4
  omega

theorem pad4_mod (n : Nat) : pad4 n % 4 = 0 := by
  unfold pad4
  omega

theorem packGlb_length (json bin : List Nat) :
    (packGlb json bin).length = glbTotalLength json bin := by
  have h1 := pad4_ge json.length
  have h2 := pad4_ge bin.length
  simp only [packGlb, glbTotalLength, u32le, List.length_append, List.length_replicate]
  by_cases hb : bin = []
  · simp only [if_pos hb, hb]
    simp
    omega
  · simp only [if_neg hb]
    simp [List.length_append]
    omega

theorem readU32_packGlb (json bin : List Nat) :
    readU32 (packGlb json bin) 8 = glbTotalLength json bin % 4294967296 := by
  have h : readU32 (packGlb json bin) 8
      = glbTotalLength json bin % 256
        + 256 * (glbTotalLength json bin / 256 % 256)
        + 65536 * (glbTotalLength json bin / 65536 % 256)
        + 16777216 * (glbTotalLength json bin / 16777216 % 256) := rfl
  rw [h]
  omega

theorem posBytes_length (l : List Vec3Q) : (posBytes l).length = 12 * l.length := by
  unfold posBytes
  rw [flatMap_const_length (fun p => f32le p.x ++ f32le p.y ++ f32le p.z) 12
    (fun p => rfl) l]
  omega

/-- C4 (amended): the header's total-length field equals the serialized byte
length reduced modulo `2^32` (the source casts with `as u32`; the two agree
below 4 GiB — the counterexample exhibits the truncation); JSON chunks are
space-padded and binary chunks zero-padded to 4-byte boundaries, so the
binary chunk length is a multiple of 4; an empty bucket collection yields
the minimal container: a JSON chunk only, no binary chunk, no meshes. -/
theorem c4_glb_container (json bin : List Nat) (ms : List (Nat × MaterialSettings)) :
    (packGlb json bin).length = glbTotalLength json bin
    ∧ readU32 (packGlb json bin) 8 = (packGlb json bin).length % 4294967296
    ∧ packGlb json bin
        = u32le 0x46546C67 ++ u32le 2 ++ u32le (glbTotalLength json bin)
          ++ u32le (pad4 json.length) ++ u32le 0x4E4F534A
          ++ json ++ List.replicate (pad4 json.length - json.length) 32
          ++ (if bin = [] then []
              else u32le (pad4 bin.length) ++ u32le 0x004E4942
                ++ bin ++ List.replicate (pad4 bin.length - bin.length) 0)
    ∧ pad4 bin.length % 4 = 0
    ∧ meshesToGlb [] ms = packGlb (strBytes emptyGlbJson) []
    ∧ (meshesToGlb [] ms).length = 20 + pad4 (strBytes emptyGlbJson).length
    ∧ ¬ List.IsInfix (strBytes "meshes") (strBytes emptyGlbJson) := by
  refine ⟨packGlb_length json bin, ?_, rfl, pad4_mod bin.length, rfl, ?_, by decide⟩
  · rw [readU32_packGlb, packGlb_length]
  · show (packGlb (strBytes emptyGlbJson) []).length = 20 + pad4 (strBytes emptyGlbJson).length
    rw [packGlb_length]
    unfold glbTotalLength
    simp

/-- A mesh with positions only: the step appends one node and the position
bytes. -/
theorem meshStep_posOnly (meshIdx matId : Nat) (l : List Vec3Q) (st : GlbState)
    (hl : l.isEmpty = false) :
    (meshStep meshIdx matId ⟨some l, none, none, none⟩ st).nodes
        = st.nodes ++ [nodeJson matId meshIdx]
    ∧ (meshStep meshIdx matId ⟨some l, none, none, none⟩ st).binBuffer
        = st.binBuffer ++ posBytes l := by
  simp only [meshStep, hl, Bool.false_eq_true, if_false]
  exact ⟨trivial, trivial⟩

/-- When the binary buffer holds at least `2^32` bytes, the `as u32` total
length differs from the true total length. -/
theorem glbTotalLength_big (j : List Nat) {b : List Nat}
    (hlen : 4294967296 ≤ b.length) (hne2 : b ≠ []) :
    glbTotalLength j b % 4294967296 ≠ glbTotalLength j b := by
  unfold glbTotalLength
  rw [if_neg hne2]
  have h1 := pad4_ge b.length
  have h2 : (pad4 j.length + pad4 b.length + 28) % 4294967296 < 4294967296 :=
    Nat.mod_lt _ (by norm_num)
  omega

/-- C4 counterexample: a single mesh of `2^30` vertices makes the total
length `12 · 2^30 + …` bytes, which exceeds `2^32`, so the `as u32` header
field no longer equals the actual byte length. -/
theorem c4_total_length_field_cex :
    readU32 (meshesToGlb [(0, c4BigMesh)] []) 8
      ≠ (meshesToGlb [(0, c4BigMesh)] []).length := by
  have hids : sortNat (keysA [(0, c4BigMesh)]) = [0] := rfl
  have hlk : (lookupA 0 [(0, c4BigMesh)]).getD defaultGlbMesh = c4BigMesh := rfl
  have hne : (List.replicate 1073741824 Vec3Q.zero).isEmpty = false := by
    rw [show List.replicate 1073741824 Vec3Q.zero
        = Vec3Q.zero :: List.replicate 1073741823 Vec3Q.zero from rfl]
    rfl
  have hstep := meshStep_posOnly 0 0 (List.replicate 1073741824 Vec3Q.zero)
    GlbState.empty hne
  have hbig : c4BigMesh
      = (⟨some (List.replicate 1073741824 Vec3Q.zero), none, none, none⟩ : GlbMesh) := rfl
  have hnodes : (meshStep 0 0 c4BigMesh GlbState.empty).nodes = [nodeJson 0 0] := by
    rw [hbig, hstep.1]
    rfl
  have hbin : (meshStep 0 0 c4BigMesh GlbState.empty).binBuffer
      = posBytes (List.replicate 1073741824 Vec3Q.zero) := by
    rw [hbig, hstep.2]
    rw [show GlbState.empty.binBuffer = [] from rfl, List.nil_append]
  have hout : meshesToGlb [(0, c4BigMesh)] []
      = packGlb
          (strBytes (assembleGlbJson (meshStep 0 0 c4BigMesh GlbState.empty)
            (glbMaterials [0]
              (fun k => (lookupA k ([] : List (Nat × MaterialSettings))).getD
                defaultMaterialSettings))))
          (meshStep 0 0 c4BigMesh GlbState.empty).binBuffer := by
    unfold meshesToGlb
    rw [hids]
    simp only [buildGlbCore, List.foldl_cons, List.foldl_nil, hlk]
    rw [if_neg (by rw [hnodes]; simp)]
  have hBlen : (meshStep 0 0 c4BigMesh GlbState.empty).binBuffer.length
      = 12884901888 := by
    rw [hbin, posBytes_length, List.length_replicate]
  have hBne : (meshStep 0 0 c4BigMesh GlbState.empty).binBuffer ≠ [] := by
    intro h
    rw [h] at hBlen
    simp at hBlen
  rw [hout, readU32_packGlb, packGlb_length]
  exact glbTotalLength_big _ (by rw [hBlen]; norm_num) hBne

/-! ### C9: determinism with respect to hash-map iteration order -/

theorem sortedInsert_eq_orderedInsert (x : Nat) (l : List Nat) :
    sortedInsert x l = List.orderedInsert (fun a b => a ≤ b) x l := by
  induction l with
  | nil => rfl
  | cons y ys ih =>
      simp only [sortedInsert, List.orderedInsert, ih]

theorem sortNat_eq_insertionSort (l : List Nat) :
    sortNat l = List.insertionSort (fun a b => a ≤ b) l := by
  induction l with
  | nil => rfl
  | cons a t ih =>
      show sortedInsert a (sortNat t) = _
      rw [ih, sortedInsert_eq_orderedInsert]
      rfl

theorem sortNat_eq_of_perm {l1 l2 : List Nat} (h : l1.Perm l2) :
    sortNat l1 = sortNat l2 := by
  rw [sortNat_eq_insertionSort, sortNat_eq_insertionSort]
  exact List.eq_of_perm_of_sorted
    ((List.perm_insertionSort _ l1).trans (h.trans (List.perm_insertionSort _ l2).symm))
    (List.sorted_insertionSort _ l1)
    (List.sorted_insertionSort _ l2)

theorem lookupA_perm {α : Type} {l1 l2 : List (Nat × α)} (h : l1.Perm l2) :
    (keysA l1).Nodup → ∀ k, lookupA k l1 = lookupA k l2 := by
  induction h with
  | nil => intro _ _; rfl
  | cons p h2 ih =>
      intro hn k
      obtain ⟨k1, v1⟩ := p
      unfold lookupA
      simp only [List.lookup]
      cases hk : k == k1
      · exact ih (List.nodup_cons.mp hn).2 k
      · rfl
  | swap x y l =>
      intro hn k
      obtain ⟨kx, vx⟩ := x
      obtain ⟨ky, vy⟩ := y
      have hne : ky ≠ kx := by
        simp only [keysA, List.map_cons, List.nodup_cons, List.mem_cons] at hn
        exact fun hh => hn.1 (Or.inl hh)
      unfold lookupA
      simp only [List.lookup]
      cases hky : k == ky <;> cases hkx : k == kx
      · rfl
      · rfl
      · rfl
      · exact absurd ((eq_of_beq hky).symm.trans (eq_of_beq hkx)) hne
  | trans h1 h2 ih1 ih2 =>
      intro hn k
      exact (ih1 hn k).trans (ih2 (((h1.map Prod.fst).nodup_iff).mp hn) k)

/-- C9: the GLB exporter is deterministic with respect to hash-map iteration
order: reordering the mesh-bucket association list and the material-settings
association list (keeping keys duplicate-free, as a hash map does) leaves the
output byte vector unchanged, because the bucket keys are sorted before any
entry is emitted and every access goes through key lookup. -/
theorem c9_export_determinism (mb1 mb2 : List (Nat × GlbMesh))
    (ms1 ms2 : List (Nat × MaterialSettings))
    (hmb : mb1.Perm mb2) (hnm : (keysA mb1).Nodup)
    (hms : ms1.Perm ms2) (hns : (keysA ms1).Nodup) :
    meshesToGlb mb1 ms1 = meshesToGlb mb2 ms2 := by
  unfold meshesToGlb
  have hkeys : sortNat (keysA mb1) = sortNat (keysA mb2) :=
    sortNat_eq_of_perm (hmb.map Prod.fst)
  have hf : (fun k => (lookupA k mb1).getD defaultGlbMesh)
      = (fun k => (lookupA k mb2).getD defaultGlbMesh) :=
    funext fun k => by rw [lookupA_perm hmb hnm k]
  have hg : (fun k => (lookupA k ms1).getD defaultMaterialSettings)
      = (fun k => (lookupA k ms2).getD defaultMaterialSettings) :=
    funext fun k => by rw [lookupA_perm hms hns k]
  rw [hkeys, hf, hg]

theorem c9_export_determinism_witness :
    List.Perm [(1, c9MeshA), (0, c9MeshB)] [(0, c9MeshB), (1, c9MeshA)]
    ∧ meshesToGlb [(1, c9MeshA), (0, c9MeshB)] [(5, defaultMaterialSettings)]
        = meshesToGlb [(0, c9MeshB), (1, c9MeshA)] [(5, defaultMaterialSettings)] :=
  ⟨List.Perm.swap _ _ _,
   c9_export_determinism _ _ _ _ (List.Perm.swap _ _ _) (by decide)
     (List.Perm.refl _) (by decide)⟩

end Symbios
